import Mathlib

/-!
Verification of the LangGraph-Sandbox core against its specification.

The development shallowly embeds the Python modules
`langgraph_sandbox/artifacts/tokens.py`, `artifacts/ingest.py`,
`artifacts/api.py`, `dataset_manager/cache.py`, `dataset_manager/staging.py`,
`dataset_manager/sync.py` and `sandbox/session_manager.py`.
Strings are `List Char` in token-level code and `String` at the store level;
byte strings are `List Nat` (each element intended `< 256`).  The HMAC-SHA256
primitive and the SHA-256 file hash are abstract function parameters: the
theorems never depend on a particular digest algorithm, only on the data flow
around it, with explicit distinctness hypotheses where a proof needs that two
digests differ.
-/

namespace Sandbox

/-- Bytes are lists of naturals; well-formed byte lists have entries `< 256`. -/
abbrev Bytes := List Nat

/-- The URL-safe base64 alphabet of `tokens.py _b64u` (`A-Z`, `a-z`, `0-9`,
`-`, `_`). -/
def b64Alphabet : List Char :=
  "ABCDEFGHIJKLMNOPQRSTUVWXYZabcdefghijklmnopqrstuvwxyz0123456789-_".toList

/-- Index `0..63` to alphabet character. -/
def b64Char (i : Nat) : Char := b64Alphabet.getD i '_'

/-- Inverse alphabet lookup used by base64 decoding; `none` on a character
outside the URL-safe alphabet (Python raises `binascii.Error`). -/
def b64Val (c : Char) : Option Nat := b64Alphabet.indexOf? c

/-- `tokens.py _b64u`: URL-safe base64 without padding, 3 bytes to 4 chars,
with the standard 1- and 2-byte tails. -/
def b64u : Bytes → List Char
  | [] => []
  | [a] => [b64Char (a / 4), b64Char (a % 4 * 16)]
  | [a, b] => [b64Char (a / 4), b64Char (a % 4 * 16 + b / 16), b64Char (b % 16 * 4)]
  | a :: b :: c :: rest =>
      b64Char (a / 4) :: b64Char (a % 4 * 16 + b / 16) ::
      b64Char (b % 16 * 4 + c / 64) :: b64Char (c % 64) :: b64u rest

/-- `tokens.py _b64u_dec`: re-pad and decode.  Mirrors CPython's
`base64.urlsafe_b64decode`: a length `≡ 1 (mod 4)` is a padding error, and
the unused trailing bits of a final partial group are ignored. -/
def b64uDec : List Char → Option Bytes
  | [] => some []
  | [_] => none
  | [c1, c2] => do
      let v1 ← b64Val c1
      let v2 ← b64Val c2
      pure [v1 * 4 + v2 / 16]
  | [c1, c2, c3] => do
      let v1 ← b64Val c1
      let v2 ← b64Val c2
      let v3 ← b64Val c3
      pure [v1 * 4 + v2 / 16, v2 % 16 * 16 + v3 / 4]
  | c1 :: c2 :: c3 :: c4 :: rest => do
      let v1 ← b64Val c1
      let v2 ← b64Val c2
      let v3 ← b64Val c3
      let v4 ← b64Val c4
      let tl ← b64uDec rest
      pure ((v1 * 4 + v2 / 16) :: (v2 % 16 * 16 + v3 / 4) :: (v3 % 4 * 64 + v4) :: tl)

/-- A byte list is well formed when every entry is below 256. -/
def WFBytes (bs : Bytes) : Prop := ∀ b ∈ bs, b < 256

instance : DecidablePred WFBytes := fun bs => by
  unfold WFBytes; infer_instance

lemma b64Val_b64Char_lt : ∀ i, i < 64 → b64Val (b64Char i) = some i := by decide

lemma b64Char_ne_dot (i : Nat) : b64Char i ≠ '.' := by
  by_cases h : i < 64
  · have : ∀ j, j < 64 → b64Char j ≠ '.' := by decide
    exact this i h
  · have hlen : b64Alphabet.length = 64 := by decide
    unfold b64Char
    rw [List.getD_eq_default]
    · decide
    · omega

/-- Encoding never emits a `'.'`, so splitting a token on its first dot
recovers the message half intact. -/
lemma dot_not_mem_b64u (bs : Bytes) : '.' ∉ b64u bs := by
  induction bs using b64u.induct with
  | case1 => simp [b64u]
  | case2 a => simp [b64u, b64Char_ne_dot, Ne.symm (b64Char_ne_dot _)]
  | case3 a b => simp [b64u, Ne.symm (b64Char_ne_dot _)]
  | case4 a b c rest ih =>
      simp [b64u, Ne.symm (b64Char_ne_dot _), ih]

/-- Decoding is a left inverse of encoding on well-formed bytes. -/
lemma b64uDec_b64u {bs : Bytes} (h : WFBytes bs) : b64uDec (b64u bs) = some bs := by
  induction bs using b64u.induct with
  | case1 => simp [b64u, b64uDec]
  | case2 a =>
      have ha : a < 256 := h a (by simp)
      have h1 : a / 4 < 64 := by omega
      have h2 : a % 4 * 16 < 64 := by omega
      simp [b64u, b64uDec, b64Val_b64Char_lt _ h1, b64Val_b64Char_lt _ h2]
      omega
  | case3 a b =>
      have ha : a < 256 := h a (by simp)
      have hb : b < 256 := h b (by simp)
      have h1 : a / 4 < 64 := by omega
      have h2 : a % 4 * 16 + b / 16 < 64 := by omega
      have h3 : b % 16 * 4 < 64 := by omega
      simp [b64u, b64uDec, b64Val_b64Char_lt _ h1, b64Val_b64Char_lt _ h2,
            b64Val_b64Char_lt _ h3]
      constructor <;> omega
  | case4 a b c rest ih =>
      have ha : a < 256 := h a (by simp)
      have hb : b < 256 := h b (by simp)
      have hc : c < 256 := h c (by simp)
      have hrest : WFBytes rest := fun x hx => h x (by simp [hx])
      have h1 : a / 4 < 64 := by omega
      have h2 : a % 4 * 16 + b / 16 < 64 := by omega
      have h3 : b % 16 * 4 + c / 64 < 64 := by omega
      have h4 : c % 64 < 64 := by omega
      simp [b64u, b64uDec, b64Val_b64Char_lt _ h1, b64Val_b64Char_lt _ h2,
            b64Val_b64Char_lt _ h3, b64Val_b64Char_lt _ h4, ih hrest]
      refine ⟨by omega, by omega, by omega⟩

/-! ### Strings, bytes and decimal rendering

`tokens.py` builds the token message via `f"{artifact_id}.{exp}".encode("utf-8")`
and decodes it back with `bytes.decode("utf-8")`.  All data actually flowing
through the service (artifact ids, `.` and decimal digits) is ASCII, where
UTF-8 is the identity on code points; the embedding covers this ASCII
fragment. -/

/-- UTF-8 encoding, on the ASCII fragment: one byte per character. -/
def strBytes (s : List Char) : Bytes := s.map Char.toNat

/-- UTF-8 decoding, on the ASCII fragment: fails on any byte `≥ 128`
(Python can then either fail or decode a multi-byte sequence; every theorem
using `bytesStr` is applied to ASCII data only). -/
def bytesStr (bs : Bytes) : Option (List Char) :=
  if bs.all (· < 128) then some (bs.map Char.ofNat) else none

/-- Character-level ASCII predicate. -/
def AsciiStr (s : List Char) : Prop := ∀ c ∈ s, c.toNat < 128

instance : DecidablePred AsciiStr := fun s => by
  unfold AsciiStr; infer_instance

lemma Char.ofNat_toNat_of_ascii {c : Char} (h : c.toNat < 128) :
    Char.ofNat c.toNat = c := by
  apply Char.ext
  simp [Char.ofNat, Char.toNat] at *
  rw [dif_pos]
  · rfl
  · exact Or.inl (by omega)

lemma bytesStr_strBytes {s : List Char} (h : AsciiStr s) :
    bytesStr (strBytes s) = some s := by
  unfold bytesStr strBytes
  rw [if_pos]
  · congr 1
    rw [List.map_map]
    conv_rhs => rw [show s = s.map id from (List.map_id s).symm]
    apply List.map_congr_left
    intro c hc
    exact Char.ofNat_toNat_of_ascii (h c hc)
  · simp only [List.all_eq_true, List.mem_map, decide_eq_true_eq]
    rintro b ⟨c, hc, rfl⟩
    exact h c hc

lemma WFBytes_strBytes {s : List Char} (h : AsciiStr s) : WFBytes (strBytes s) := by
  intro b hb
  simp only [strBytes, List.mem_map] at hb
  obtain ⟨c, hc, rfl⟩ := hb
  exact lt_trans (h c hc) (by norm_num)

/-- Fuel-driven core of decimal rendering (structural recursion, so that
closed tokens evaluate inside the kernel). -/
def natDigitsAux : Nat → Nat → List Char → List Char
  | 0, _, acc => acc
  | fuel + 1, n, acc =>
      if n < 10 then Char.ofNat (48 + n) :: acc
      else natDigitsAux fuel (n / 10) (Char.ofNat (48 + n % 10) :: acc)

/-- Decimal rendering of a natural, as `str(exp)` produces it. -/
def natDigits (n : Nat) : List Char := natDigitsAux (n + 1) n []

/-- Decimal digit test, as used by the embedded `int()` parse. -/
def isDigitChar (c : Char) : Bool := 48 ≤ c.toNat && c.toNat ≤ 57

/-- The numeric value of a digit string (`int(s)` restricted to plain
nonnegative decimal literals; on anything else the embedding fails, and
`verify_token` maps the failure to `InvalidFormat`). -/
def parseNat (s : List Char) : Option Nat :=
  if s ≠ [] ∧ s.all isDigitChar then
    some (s.foldl (fun a c => a * 10 + (c.toNat - 48)) 0)
  else none

lemma digit_char_toNat {d : Nat} (h : d < 10) : (Char.ofNat (48 + d)).toNat = 48 + d := by
  interval_cases d <;> decide

lemma natDigitsAux_append : ∀ fuel n acc, n < fuel →
    natDigitsAux fuel n acc = natDigitsAux fuel n [] ++ acc := by
  intro fuel
  induction fuel with
  | zero => omega
  | succ fuel ih =>
      intro n acc h
      by_cases h10 : n < 10
      · simp [natDigitsAux, h10]
      · have hdiv : n / 10 < fuel :=
          lt_of_lt_of_le (Nat.div_lt_self (by omega) (by omega)) (by omega)
        simp only [natDigitsAux, if_neg h10]
        rw [ih _ _ hdiv, ih _ (Char.ofNat (48 + n % 10) :: []) hdiv]
        simp

lemma natDigitsAux_fuel_irrel : ∀ n f1 f2, n < f1 → n < f2 →
    natDigitsAux f1 n [] = natDigitsAux f2 n [] := by
  intro n
  induction n using Nat.strong_induction_on with
  | _ n ih =>
    intro f1 f2 h1 h2
    obtain ⟨g1, rfl⟩ : ∃ g1, f1 = g1 + 1 := ⟨f1 - 1, by omega⟩
    obtain ⟨g2, rfl⟩ : ∃ g2, f2 = g2 + 1 := ⟨f2 - 1, by omega⟩
    by_cases h10 : n < 10
    · simp [natDigitsAux, h10]
    · have hn : n / 10 < n := Nat.div_lt_self (by omega) (by omega)
      simp only [natDigitsAux, if_neg h10]
      rw [natDigitsAux_append _ _ _ (by omega), natDigitsAux_append g2 _ _ (by omega),
        ih (n / 10) hn g1 g2 (by omega) (by omega)]

/-- The defining equation of decimal rendering, in the shape of the usual
recursion on `n / 10`. -/
lemma natDigits_eq (n : Nat) :
    natDigits n =
      if n < 10 then [Char.ofNat (48 + n)]
      else natDigits (n / 10) ++ [Char.ofNat (48 + n % 10)] := by
  by_cases h10 : n < 10
  · simp [natDigits, natDigitsAux, h10]
  · have hn : n / 10 < n := Nat.div_lt_self (by omega) (by omega)
    rw [if_neg h10]
    unfold natDigits
    have step : natDigitsAux (n + 1) n [] =
        natDigitsAux n (n / 10) [Char.ofNat (48 + n % 10)] := by
      simp [natDigitsAux, h10]
    rw [step, natDigitsAux_append _ _ _ (by omega),
      natDigitsAux_fuel_irrel (n / 10) n (n / 10 + 1) (by omega) (by omega)]

lemma natDigits_all_digits (n : Nat) : (natDigits n).all isDigitChar = true := by
  induction n using Nat.strong_induction_on with
  | _ n ih =>
    rw [natDigits_eq]
    split
    · rename_i h
      simp [isDigitChar, digit_char_toNat h]
      omega
    · rename_i h
      have hd : n % 10 < 10 := Nat.mod_lt _ (by omega)
      simp only [List.all_append, List.all_cons, List.all_nil, Bool.and_true,
        Bool.and_eq_true]
      refine ⟨ih (n / 10) (Nat.div_lt_self (by omega) (by omega)), ?_⟩
      simp [isDigitChar, digit_char_toNat hd]
      omega

lemma natDigits_ne_nil (n : Nat) : natDigits n ≠ [] := by
  rw [natDigits_eq]
  split <;> simp

lemma foldl_digits_append (l1 l2 : List Char) (a : Nat) :
    (l1 ++ l2).foldl (fun a c => a * 10 + (c.toNat - 48)) a =
      l2.foldl (fun a c => a * 10 + (c.toNat - 48))
        (l1.foldl (fun a c => a * 10 + (c.toNat - 48)) a) := by
  rw [List.foldl_append]

lemma natDigits_foldl (n : Nat) :
    (natDigits n).foldl (fun a c => a * 10 + (c.toNat - 48)) 0 = n := by
  induction n using Nat.strong_induction_on with
  | _ n ih =>
    rw [natDigits_eq]
    split
    · rename_i h
      simp [digit_char_toNat h]
    · rename_i h
      have hd : n % 10 < 10 := Nat.mod_lt _ (by omega)
      rw [foldl_digits_append, ih (n / 10) (Nat.div_lt_self (by omega) (by omega))]
      simp [digit_char_toNat hd]
      omega

/-- `int(str(n)) = n` for the embedded decimal codec. -/
lemma parseNat_natDigits (n : Nat) : parseNat (natDigits n) = some n := by
  unfold parseNat
  rw [if_pos ⟨natDigits_ne_nil n, natDigits_all_digits n⟩, natDigits_foldl]

lemma natDigits_ascii (n : Nat) : AsciiStr (natDigits n) := by
  intro c hc
  induction n using Nat.strong_induction_on with
  | _ n ih =>
    rw [natDigits_eq] at hc
    split at hc
    · rename_i h
      simp at hc
      subst hc
      rw [digit_char_toNat h]
      omega
    · rename_i h
      have hd : n % 10 < 10 := Nat.mod_lt _ (by omega)
      simp at hc
      rcases hc with hc | hc
      · exact ih (n / 10) (Nat.div_lt_self (by omega) (by omega)) hc
      · subst hc
        rw [digit_char_toNat hd]
        omega

lemma natDigits_no_dot (n : Nat) : '.' ∉ natDigits n := by
  intro hmem
  have := natDigits_all_digits n
  rw [List.all_eq_true] at this
  have := this '.' hmem
  simp [isDigitChar] at this

/-! ### Dot splitting -/

/-- `token.split(".", 1)` when the token contains a dot; `none` when it does
not (Python then fails tuple unpacking, mapped to `InvalidFormat`). -/
def splitFirstDot : List Char → Option (List Char × List Char)
  | [] => none
  | c :: rest =>
      if c = '.' then some ([], rest)
      else match splitFirstDot rest with
        | some (a, b) => some (c :: a, b)
        | none => none

/-- `s.rsplit(".", 1)` when `s` contains a dot: the part before the last dot
and the part after it. -/
def rsplitLastDot (s : List Char) : Option (List Char × List Char) :=
  match splitFirstDot s.reverse with
  | some (a, b) => some (b.reverse, a.reverse)
  | none => none

lemma splitFirstDot_append {xs : List Char} (ys : List Char) (h : '.' ∉ xs) :
    splitFirstDot (xs ++ '.' :: ys) = some (xs, ys) := by
  induction xs with
  | nil => simp [splitFirstDot]
  | cons c rest ih =>
      have hc : c ≠ '.' := by
        intro hc; exact h (by simp [hc])
      have hrest : '.' ∉ rest := fun hx => h (by simp [hx])
      simp [splitFirstDot, hc, ih hrest]

lemma rsplitLastDot_append {ds : List Char} (xs : List Char) (h : '.' ∉ ds) :
    rsplitLastDot (xs ++ '.' :: ds) = some (xs, ds) := by
  unfold rsplitLastDot
  have hrev : '.' ∉ ds.reverse := by simpa using h
  have : (xs ++ '.' :: ds).reverse = ds.reverse ++ '.' :: xs.reverse := by
    simp
  rw [this, splitFirstDot_append _ hrev]
  simp

/-! ### Token service (`langgraph_sandbox/artifacts/tokens.py`)

The HMAC-SHA256 primitive is an abstract parameter
`hmacFn : Bytes → Bytes → Bytes` (key, message ↦ digest). -/

/-- Failure modes of `verify_token` (the three `RuntimeError` messages). -/
inductive TokenError
  | invalidFormat
  | invalidSignature
  | expired
deriving DecidableEq, Repr

/-- `tokens.py _secret`: the explicit `ARTIFACTS_SECRET` if configured, else
the value of a fresh `secrets.token_urlsafe(32)` draw made *at this call*
(the source caches nothing, so every call draws anew). -/
def secretBytes (envSecret : Option (List Char)) (randDraw : Bytes) : Bytes :=
  match envSecret with
  | some s => strBytes s
  | none => randDraw

/-- `tokens.py create_token`: message `artifact_id ++ "." ++ str(now + ttl)`,
signature `hmac(secret, message)`, token `b64u(msg) ++ "." ++ b64u(sig)`. -/
def create_token (hmacFn : Bytes → Bytes → Bytes) (secret : Bytes) (ttl : Nat)
    (artifact_id : List Char) (now : Nat) : List Char :=
  let exp := now + ttl
  let msg := strBytes (artifact_id ++ '.' :: natDigits exp)
  let sig := hmacFn secret msg
  b64u msg ++ '.' :: b64u sig

/-- `tokens.py verify_token` with the wall clock made explicit: split on the
first dot, base64-decode both halves, split the message on its *last* dot,
parse the expiry, recompute and compare the HMAC, then check expiry with
`now > exp`. -/
def verify_token (hmacFn : Bytes → Bytes → Bytes) (secret : Bytes) (now : Nat)
    (token : List Char) : Except TokenError (List Char × Nat) :=
  match splitFirstDot token with
  | none => .error .invalidFormat
  | some (msgB64, sigB64) =>
    match b64uDec msgB64, b64uDec sigB64 with
    | some msg, some sig =>
      match bytesStr msg with
      | none => .error .invalidFormat
      | some msgStr =>
        match rsplitLastDot msgStr with
        | none => .error .invalidFormat
        | some (artifact_id, expStr) =>
          match parseNat expStr with
          | none => .error .invalidFormat
          | some exp =>
            if sig = hmacFn secret msg then
              if now > exp then .error .expired
              else .ok (artifact_id, exp)
            else .error .invalidSignature
    | _, _ => .error .invalidFormat

/-- The full honest-path evaluation of `verify_token` on a token built by
`create_token` with the same secret: format checks pass and the outcome is
decided by the expiry comparison alone. -/
lemma verify_create_eval (hmacFn : Bytes → Bytes → Bytes) (secret : Bytes)
    (ttl : Nat) (aid : List Char) (now nowV : Nat)
    (hAscii : AsciiStr aid)
    (hSig : WFBytes (hmacFn secret (strBytes (aid ++ '.' :: natDigits (now + ttl))))) :
    verify_token hmacFn secret nowV (create_token hmacFn secret ttl aid now) =
      if nowV > now + ttl then .error .expired else .ok (aid, now + ttl) := by
  unfold create_token verify_token
  have hAsciiMsg : AsciiStr (aid ++ '.' :: natDigits (now + ttl)) := by
    intro c hc
    simp at hc
    rcases hc with hc | hc | hc
    · exact hAscii c hc
    · subst hc; decide
    · exact natDigits_ascii (now + ttl) c hc
  have hWFmsg : WFBytes (strBytes (aid ++ '.' :: natDigits (now + ttl))) :=
    WFBytes_strBytes hAsciiMsg
  rw [splitFirstDot_append _ (dot_not_mem_b64u _)]
  simp only
  rw [b64uDec_b64u hWFmsg, b64uDec_b64u hSig]
  simp only
  rw [bytesStr_strBytes hAsciiMsg]
  simp only
  rw [rsplitLastDot_append _ (natDigits_no_dot _)]
  simp only
  rw [parseNat_natDigits]
  simp only [if_pos rfl]
  rfl

/-- A token whose signature half decodes to anything other than the HMAC of
its message half is rejected as `InvalidSignature` (checked before expiry). -/
lemma verify_sig_tamper (hmacFn : Bytes → Bytes → Bytes) (secret : Bytes)
    (ttl : Nat) (aid : List Char) (now nowV : Nat) (sig' : Bytes)
    (hAscii : AsciiStr aid)
    (hWFsig : WFBytes sig')
    (hne : sig' ≠ hmacFn secret (strBytes (aid ++ '.' :: natDigits (now + ttl)))) :
    verify_token hmacFn secret nowV
        (b64u (strBytes (aid ++ '.' :: natDigits (now + ttl))) ++ '.' :: b64u sig') =
      .error .invalidSignature := by
  unfold verify_token
  have hAsciiMsg : AsciiStr (aid ++ '.' :: natDigits (now + ttl)) := by
    intro c hc
    simp at hc
    rcases hc with hc | hc | hc
    · exact hAscii c hc
    · subst hc; decide
    · exact natDigits_ascii (now + ttl) c hc
  rw [splitFirstDot_append _ (dot_not_mem_b64u _)]
  simp only
  rw [b64uDec_b64u (WFBytes_strBytes hAsciiMsg), b64uDec_b64u hWFsig]
  simp only
  rw [bytesStr_strBytes hAsciiMsg]
  simp only
  rw [rsplitLastDot_append _ (natDigits_no_dot _)]
  simp only
  rw [parseNat_natDigits]
  simp only [if_neg hne]

/-- A token whose message half decodes to different bytes never verifies,
provided the recomputed HMAC differs from the stored signature (every earlier
parse step that fails instead is mapped to `InvalidFormat`). -/
lemma verify_msg_tamper (hmacFn : Bytes → Bytes → Bytes) (secret : Bytes)
    (nowV : Nat) (msg' sig : Bytes)
    (hWFmsg : WFBytes msg')
    (hWFsig : WFBytes sig)
    (hne : sig ≠ hmacFn secret msg') :
    ∀ p, verify_token hmacFn secret nowV (b64u msg' ++ '.' :: b64u sig) ≠ .ok p := by
  intro p
  unfold verify_token
  rw [splitFirstDot_append _ (dot_not_mem_b64u _)]
  simp only
  rw [b64uDec_b64u hWFmsg, b64uDec_b64u hWFsig]
  simp only
  cases hstr : bytesStr msg' with
  | none => simp
  | some msgStr =>
    simp only
    cases hsplit : rsplitLastDot msgStr with
    | none => simp
    | some pr =>
      simp only
      cases hparse : parseNat pr.2 with
      | none => simp
      | some exp =>
        simp only
        rw [if_neg hne]
        simp

/-- A concrete digest function used only to instantiate the abstract HMAC
parameter in closed witnesses and counterexamples. -/
def toyHmac (key msg : Bytes) : Bytes := [(key.sum + 2 * msg.sum) % 256]

/-- C3: in `tokens.py`, `_secret()` is called separately by `create_token`
and `verify_token`; with `ARTIFACTS_SECRET` unset each call returns a *fresh*
`secrets.token_urlsafe(32)` draw (nothing is cached), so the two calls use
different secrets and the in-process round trip is rejected as
`InvalidSignature`.  With the env secret configured both calls agree and the
round trip returns the original artifact id.  This contradicts the claim
that the fallback secret is a single process-lifetime value. -/
theorem C3_fresh_secret_breaks_roundtrip :
    verify_token toyHmac (secretBytes none [2]) 0
        (create_token toyHmac (secretBytes none [1]) 600 ("art_x".toList) 0) =
      .error .invalidSignature ∧
    verify_token toyHmac (secretBytes (some ("s".toList)) []) 0
        (create_token toyHmac (secretBytes (some ("s".toList)) []) 600 ("art_x".toList) 0) =
      .ok ("art_x".toList, 600) :=
  ⟨rfl, rfl⟩

/-- C7 counterexample: the code checks expiry with `now > exp`, so at
`now = expiry` (here `10`) the token is still *accepted*, while the claim
requires failure for every `now ≥ expiry`. -/
theorem C7_counterexample_accepted_at_expiry :
    verify_token toyHmac [5] 10 (create_token toyHmac [5] 10 ['a'] 0) =
      .ok (['a'], 10) :=
  rfl

/-- C7 (amended): a token produced by `create_token(a)` verifies to `a` for
every `now ≤ expiry`; it fails as `Expired` once `now ≥ expiry + 1` (in
particular at `now = expiry + 1`); any change to the decoded signature bytes
is rejected as `InvalidSignature`; and any change to the message bytes is
rejected whenever the recomputed HMAC differs from the stored signature. -/
theorem C7_token_expiry_window_and_tamper (hmacFn : Bytes → Bytes → Bytes)
    (secret : Bytes) (ttl : Nat) (aid : List Char) (now : Nat)
    (hAscii : AsciiStr aid)
    (hSig : WFBytes (hmacFn secret (strBytes (aid ++ '.' :: natDigits (now + ttl))))) :
    (∀ nowV, nowV ≤ now + ttl →
      verify_token hmacFn secret nowV (create_token hmacFn secret ttl aid now) =
        .ok (aid, now + ttl)) ∧
    (∀ nowV, now + ttl < nowV →
      verify_token hmacFn secret nowV (create_token hmacFn secret ttl aid now) =
        .error .expired) ∧
    (∀ nowV sig', WFBytes sig' →
      sig' ≠ hmacFn secret (strBytes (aid ++ '.' :: natDigits (now + ttl))) →
      verify_token hmacFn secret nowV
          (b64u (strBytes (aid ++ '.' :: natDigits (now + ttl))) ++ '.' :: b64u sig') =
        .error .invalidSignature) ∧
    (∀ nowV msg', WFBytes msg' →
      hmacFn secret msg' ≠ hmacFn secret (strBytes (aid ++ '.' :: natDigits (now + ttl))) →
      ∀ p, verify_token hmacFn secret nowV
          (b64u msg' ++
            '.' :: b64u (hmacFn secret (strBytes (aid ++ '.' :: natDigits (now + ttl))))) ≠
        .ok p) := by
  refine ⟨?_, ?_, ?_, ?_⟩
  · intro nowV hle
    rw [verify_create_eval hmacFn secret ttl aid now nowV hAscii hSig, if_neg (by omega)]
  · intro nowV hgt
    rw [verify_create_eval hmacFn secret ttl aid now nowV hAscii hSig, if_pos hgt]
  · intro nowV sig' hWF hne
    exact verify_sig_tamper hmacFn secret ttl aid now nowV sig' hAscii hWF hne
  · intro nowV msg' hWF hne p
    exact verify_msg_tamper hmacFn secret nowV msg' _ hWF hSig (Ne.symm hne) p

/-- Witness for the amended C7 theorem at concrete inputs. -/
theorem C7_token_expiry_window_and_tamper_witness :
    verify_token toyHmac [5] 1 (create_token toyHmac [5] 2 ['a'] 0) = .ok (['a'], 2) ∧
    verify_token toyHmac [5] 3 (create_token toyHmac [5] 2 ['a'] 0) = .error .expired ∧
    verify_token toyHmac [5] 1
        (b64u (strBytes (['a'] ++ '.' :: natDigits 2)) ++ '.' :: b64u [0]) =
      .error .invalidSignature ∧
    verify_token toyHmac [5] 1
        (b64u [98] ++ '.' :: b64u (toyHmac [5] (strBytes (['a'] ++ '.' :: natDigits 2)))) ≠
      .ok (['a'], 2) := by
  have h := C7_token_expiry_window_and_tamper toyHmac [5] 2 ['a'] 0 (by decide) (by decide)
  exact ⟨h.1 1 (by norm_num), h.2.1 3 (by norm_num),
    h.2.2.1 1 [0] (by decide) (by decide),
    h.2.2.2 1 [98] (by decide) (by decide) (['a'], 2)⟩

/-! ### Artifact id generation (`ingest.py _gen_artifact_id`) -/

/-- The lowercase hexadecimal alphabet used by `uuid.UUID.hex`. -/
def hexAlphabet : List Char := "0123456789abcdef".toList

/-- Index `0..15` to lowercase hex digit. -/
def hexChar (i : Nat) : Char := hexAlphabet.getD i '0'

/-- `uuid.uuid4().hex`: two lowercase hex digits per byte of the 16 UUID
bytes. -/
def uuidHex (bs : Bytes) : List Char :=
  bs.flatMap (fun b => [hexChar (b / 16), hexChar (b % 16)])

/-- `ingest.py _gen_artifact_id`: `"art_" + uuid.uuid4().hex[:24]`, as a
function of the random UUID bytes. -/
def gen_artifact_id (uuidBytes : Bytes) : List Char :=
  "art_".toList ++ (uuidHex uuidBytes).take 24

/-- Lowercase hexadecimal digit test (`0-9`, `a-f`). -/
def isLowerHexChar (c : Char) : Bool :=
  (48 ≤ c.toNat && c.toNat ≤ 57) || (97 ≤ c.toNat && c.toNat ≤ 102)

lemma hexChar_lower (i : Nat) (h : i < 16) : isLowerHexChar (hexChar i) = true := by
  have : ∀ j, j < 16 → isLowerHexChar (hexChar j) = true := by decide
  exact this i h

lemma uuidHex_lower {bs : Bytes} (h : WFBytes bs) :
    ∀ c ∈ uuidHex bs, isLowerHexChar c = true := by
  intro c hc
  simp only [uuidHex, List.mem_flatMap] at hc
  obtain ⟨b, hb, hcb⟩ := hc
  have hblt : b < 256 := h b hb
  simp at hcb
  rcases hcb with rfl | rfl
  · exact hexChar_lower _ (by omega)
  · exact hexChar_lower _ (by omega)

lemma uuidHex_length (bs : Bytes) : (uuidHex bs).length = 2 * bs.length := by
  induction bs with
  | nil => simp [uuidHex]
  | cons b rest ih =>
      simp only [uuidHex, List.flatMap_cons] at *
      simp [ih]
      omega

/-- C10: every generated artifact id is `"art_"` followed by exactly 24
lowercase hex characters; it contains no `'.'`, so parsing a token message by
its last dot always recovers the id intact. -/
theorem C10_artifact_id_shape (ub : Bytes) (hWF : WFBytes ub) (hlen : ub.length = 16) :
    (gen_artifact_id ub).length = 28 ∧
    (gen_artifact_id ub).take 4 = "art_".toList ∧
    ((gen_artifact_id ub).drop 4).length = 24 ∧
    (∀ c ∈ (gen_artifact_id ub).drop 4, isLowerHexChar c = true) ∧
    '.' ∉ gen_artifact_id ub ∧
    ∀ exp : Nat, rsplitLastDot (gen_artifact_id ub ++ '.' :: natDigits exp) =
      some (gen_artifact_id ub, natDigits exp) := by
  have hhex : (uuidHex ub).length = 32 := by rw [uuidHex_length, hlen]
  have htake : ((uuidHex ub).take 24).length = 24 := by
    rw [List.length_take, hhex]
    omega
  have hmemhex : ∀ c ∈ (uuidHex ub).take 24, isLowerHexChar c = true := by
    intro c hc
    exact uuidHex_lower hWF c (List.mem_of_mem_take hc)
  have hdrop : (gen_artifact_id ub).drop 4 = (uuidHex ub).take 24 := by
    unfold gen_artifact_id
    rw [show (4 : Nat) = ("art_".toList).length from by decide, List.drop_left]
  refine ⟨?_, ?_, ?_, ?_, ?_, ?_⟩
  · unfold gen_artifact_id
    simp [htake]
  · unfold gen_artifact_id
    rw [show (4 : Nat) = ("art_".toList).length from by decide, List.take_left]
  · rw [hdrop]; exact htake
  · rw [hdrop]; exact hmemhex
  · intro hmem
    unfold gen_artifact_id at hmem
    rw [List.mem_append] at hmem
    rcases hmem with hmem | hmem
    · revert hmem; decide
    · have := hmemhex '.' hmem
      simp [isLowerHexChar] at this
  · intro exp
    exact rsplitLastDot_append _ (natDigits_no_dot _)

/-- Witness for the C10 theorem at a concrete UUID byte string. -/
theorem C10_artifact_id_shape_witness :
    (gen_artifact_id (List.replicate 16 0)).length = 28 ∧
    '.' ∉ gen_artifact_id (List.replicate 16 0) ∧
    rsplitLastDot (gen_artifact_id (List.replicate 16 0) ++ '.' :: natDigits 77) =
      some (gen_artifact_id (List.replicate 16 0), natDigits 77) := by
  have h := C10_artifact_id_shape (List.replicate 16 0) (by decide) (by decide)
  exact ⟨h.1, h.2.2.2.2.1, h.2.2.2.2.2 77⟩

/-! ### Artifact store and ingestion (`langgraph_sandbox/artifacts/ingest.py`)

The SQLite tables `artifacts` and `links` are row lists; the blobstore is an
association list keyed by sha256 (the on-disk path
`<blob_root>/<sha 0:2>/<sha 2:4>/<sha>` is a function of the sha alone).
Host files are a partial map from path to content (`none` = not a regular
file).  The SHA-256 hex digest, the extension-based mime sniffer, the
optional download-URL builder and the per-call UUID draws are abstract
parameters collected in `IngestEnv`. -/

/-- One row of the `artifacts` table. -/
structure ArtifactRow where
  id : String
  sha256 : String
  size : Nat
  mime : String
  filename : String
  created_at : String
deriving DecidableEq, Repr

/-- One row of the `links` table. -/
structure LinkRow where
  artifact_id : String
  session_id : String
  run_id : Option String
  tool_call_id : Option String
  created_at : String
deriving DecidableEq, Repr

/-- The artifact store: both catalog tables plus the blobstore directory. -/
structure Store where
  artifacts : List ArtifactRow
  links : List LinkRow
  blobs : List (String × Bytes)
deriving DecidableEq, Repr

/-- Per-file ingest result (`ingest.py` descriptor dictionary). -/
structure Descriptor where
  id : Option String
  name : String
  mime : String
  size : Nat
  sha256 : Option String
  created_at : String
  url : Option String
  error : Option String
deriving DecidableEq, Repr

/-- Ambient parameters of one ingest call: the digest and mime functions,
the optional URL builder, the stream of UUID draws consumed by
`_gen_artifact_id`, the `_max_bytes()` cap and the `_now_iso()` clock. -/
structure IngestEnv where
  shaFn : Bytes → String
  mimeOf : String → String
  urlOf : String → Option String
  idBytes : Nat → Bytes
  maxBytes : Nat
  nowIso : String

/-- `ingest.py _max_bytes`: `MAX_ARTIFACT_SIZE_MB * 1024 * 1024`. -/
def max_bytes (mb : Nat) : Nat := mb * 1024 * 1024

/-- The default cap: 50 MiB. -/
def default_max_bytes : Nat := max_bytes 50

/-- `basename` of a POSIX path (`Path(p).name`): the segment after the last
`/`. -/
def basename (p : String) : String :=
  String.mk ((p.toList.reverse.takeWhile (fun c => c ≠ '/')).reverse)

/-- `ingest.py _copy_bytes`: write the blob unless it already exists. -/
def copy_bytes (blobs : List (String × Bytes)) (sha : String) (content : Bytes) :
    List (String × Bytes) :=
  match blobs.find? (fun pr => pr.1 = sha) with
  | some _ => blobs
  | none => blobs ++ [(sha, content)]

/-- `ingest.py _upsert_artifact`: reuse the row with this sha if present
(re-copying a pruned blob), else write the blob, draw a fresh id and insert
a new row.  Returns the store, the id-draw counter and the artifact id. -/
def upsert_artifact (env : IngestEnv) (st : Store) (counter : Nat)
    (sha : String) (size : Nat) (mime filename created_at : String)
    (content : Bytes) : Store × Nat × String :=
  match st.artifacts.find? (fun r => r.sha256 = sha) with
  | some row =>
      ({ st with blobs := copy_bytes st.blobs sha content }, counter, row.id)
  | none =>
      let art_id := String.mk (gen_artifact_id (env.idBytes counter))
      ({ st with
          artifacts := st.artifacts ++ [⟨art_id, sha, size, mime, filename, created_at⟩],
          blobs := copy_bytes st.blobs sha content },
        counter + 1, art_id)

/-- Mutable state threaded through the per-file loop of `ingest_files`. -/
structure IngestState where
  store : Store
  counter : Nat
  descriptors : List Descriptor
  deleted : List String
deriving Repr

/-- The body of the per-file loop of `ingest_files`: reject oversized files
with an error descriptor (no rows, no deletion), else hash, upsert, link,
build the descriptor (with optional URL) and delete the source. -/
def ingest_step (env : IngestEnv) (session_id : String)
    (run_id tool_call_id : Option String) (hfs : String → Option Bytes)
    (s : IngestState) (src : String) : IngestState :=
  match hfs src with
  | none => s
  | some content =>
    let size := content.length
    if size > env.maxBytes then
      { s with descriptors := s.descriptors ++
          [{ id := none, name := basename src, mime := env.mimeOf (basename src),
             size := size, sha256 := none, created_at := env.nowIso, url := none,
             error := some ("File too large (> " ++ toString env.maxBytes ++ " bytes).") }] }
    else
      let sha := env.shaFn content
      let mime := env.mimeOf (basename src)
      let up := upsert_artifact env s.store s.counter sha size mime (basename src)
        env.nowIso content
      let stLinked := { up.1 with links := up.1.links ++
        [⟨up.2.2, session_id, run_id, tool_call_id, env.nowIso⟩] }
      { store := stLinked
        counter := up.2.1
        descriptors := s.descriptors ++
          [{ id := some up.2.2, name := basename src, mime := mime, size := size,
             sha256 := some sha, created_at := env.nowIso, url := env.urlOf up.2.2,
             error := none }]
        deleted := s.deleted ++ [src] }

/-- `ingest.py ingest_files`: filter to existing regular files, then run the
per-file loop. -/
def ingest_files (env : IngestEnv) (session_id : String)
    (run_id tool_call_id : Option String) (hfs : String → Option Bytes)
    (st : Store) (counter : Nat) (new_host_files : List String) : IngestState :=
  let new_paths := new_host_files.filter (fun p => p ≠ "" && (hfs p).isSome)
  new_paths.foldl (ingest_step env session_id run_id tool_call_id hfs)
    { store := st, counter := counter, descriptors := [], deleted := [] }

/-- The dedup invariant of the `artifacts` table: `sha256` is `UNIQUE`. -/
def WFStore (st : Store) : Prop :=
  st.artifacts.Pairwise (fun r1 r2 => r1.sha256 ≠ r2.sha256)

lemma pairwise_sha_filter_le_one (l : List ArtifactRow)
    (h : l.Pairwise (fun r1 r2 => r1.sha256 ≠ r2.sha256)) (sha : String) :
    (l.filter (fun r => r.sha256 = sha)).length ≤ 1 := by
  induction l with
  | nil => simp
  | cons a t ih =>
      rw [List.pairwise_cons] at h
      by_cases ha : a.sha256 = sha
      · have ht : t.filter (fun r => r.sha256 = sha) = [] := by
          rw [List.filter_eq_nil_iff]
          intro b hb
          simp only [decide_eq_true_eq]
          intro hbs
          exact h.1 b hb (ha.trans hbs.symm)
        simp [List.filter_cons, ha, ht]
      · simp only [List.filter_cons, decide_eq_true_eq]
        rw [if_neg ha]
        exact ih h.2

lemma upsert_artifact_found (env : IngestEnv) (st : Store) (counter : Nat)
    (sha : String) (size : Nat) (mime filename created_at : String)
    (content : Bytes) (row0 : ArtifactRow)
    (hfind : st.artifacts.find? (fun r => r.sha256 = sha) = some row0) :
    upsert_artifact env st counter sha size mime filename created_at content =
      ({ st with blobs := copy_bytes st.blobs sha content }, counter, row0.id) := by
  unfold upsert_artifact
  rw [hfind]

lemma upsert_artifact_spec (env : IngestEnv) (st : Store) (counter : Nat)
    (sha : String) (size : Nat) (mime filename created_at : String)
    (content : Bytes) (hWF : WFStore st) :
    WFStore (upsert_artifact env st counter sha size mime filename created_at content).1 ∧
    (upsert_artifact env st counter sha size mime filename created_at content).1.links =
      st.links ∧
    (∃ row,
      (upsert_artifact env st counter sha size mime filename created_at
          content).1.artifacts.find? (fun r => r.sha256 = sha) = some row ∧
      row.id =
        (upsert_artifact env st counter sha size mime filename created_at content).2.2 ∧
      row.sha256 = sha) ∧
    ((upsert_artifact env st counter sha size mime filename created_at
        content).1.artifacts.filter (fun r => r.sha256 = sha)).length = 1 := by
  cases hfind : st.artifacts.find? (fun r => r.sha256 = sha) with
  | some row0 =>
      rw [upsert_artifact_found env st counter sha size mime filename created_at content
        row0 hfind]
      have hmem : row0 ∈ st.artifacts := List.mem_of_find?_eq_some hfind
      have hsha : row0.sha256 = sha := by
        have := List.find?_some hfind
        simpa using this
      refine ⟨hWF, ?_, ⟨row0, ?_, ?_, hsha⟩, ?_⟩
      · rfl
      · exact hfind
      · rfl
      · have hle := pairwise_sha_filter_le_one st.artifacts hWF sha
        have hpos : 0 < (st.artifacts.filter (fun r => r.sha256 = sha)).length :=
          List.length_pos_of_mem (List.mem_filter.mpr ⟨hmem, by simp [hsha]⟩)
        change (st.artifacts.filter (fun r => r.sha256 = sha)).length = 1
        omega
  | none =>
      have hnone : ∀ r ∈ st.artifacts, r.sha256 ≠ sha := by
        intro r hr
        have := List.find?_eq_none.mp hfind r hr
        simpa using this
      unfold upsert_artifact
      rw [hfind]
      simp only
      have hfilter : st.artifacts.filter (fun r => r.sha256 = sha) = [] := by
        rw [List.filter_eq_nil_iff]
        intro r hr
        simpa using hnone r hr
      refine ⟨?_, ?_, ?_, ?_⟩
      · unfold WFStore at *
        rw [List.pairwise_append]
        exact ⟨hWF, by simp, by intro a ha b hb; simp at hb; subst hb; exact hnone a ha⟩
      · trivial
      · refine ⟨⟨String.mk (gen_artifact_id (env.idBytes counter)), sha, size, mime,
          filename, created_at⟩, ?_, rfl, rfl⟩
        rw [List.find?_append, hfind]
        simp [List.find?]
      · rw [List.filter_append, hfilter]
        simp

/-- Evaluation of a single-file `ingest_files` call on a regular file within
the size cap. -/
lemma ingest_files_single (env : IngestEnv) (sess : String)
    (run tc : Option String) (hfs : String → Option Bytes) (st : Store)
    (counter : Nat) (p : String) (content : Bytes)
    (hp : p ≠ "") (hf : hfs p = some content)
    (hsize : content.length ≤ env.maxBytes) :
    ingest_files env sess run tc hfs st counter [p] =
      { store :=
          { (upsert_artifact env st counter (env.shaFn content) content.length
              (env.mimeOf (basename p)) (basename p) env.nowIso content).1 with
            links :=
              (upsert_artifact env st counter (env.shaFn content) content.length
                (env.mimeOf (basename p)) (basename p) env.nowIso content).1.links ++
              [⟨(upsert_artifact env st counter (env.shaFn content) content.length
                  (env.mimeOf (basename p)) (basename p) env.nowIso content).2.2,
                sess, run, tc, env.nowIso⟩] }
        counter :=
          (upsert_artifact env st counter (env.shaFn content) content.length
            (env.mimeOf (basename p)) (basename p) env.nowIso content).2.1
        descriptors :=
          [{ id := some (upsert_artifact env st counter (env.shaFn content)
              content.length (env.mimeOf (basename p)) (basename p) env.nowIso
              content).2.2,
             name := basename p, mime := env.mimeOf (basename p),
             size := content.length, sha256 := some (env.shaFn content),
             created_at := env.nowIso,
             url := env.urlOf (upsert_artifact env st counter (env.shaFn content)
               content.length (env.mimeOf (basename p)) (basename p) env.nowIso
               content).2.2,
             error := none }]
        deleted := [p] } := by
  unfold ingest_files
  have hkeep : [p].filter (fun q => q ≠ "" && (hfs q).isSome) = [p] := by
    simp [List.filter, hp, hf]
  rw [hkeep]
  simp only [List.foldl]
  unfold ingest_step
  rw [hf]
  simp only
  rw [if_neg (by omega)]
  simp

/-- Evaluation of a single-file `ingest_files` call on a file one byte over
the cap (or larger): error descriptor only, store untouched, no deletion. -/
lemma ingest_files_single_toobig (env : IngestEnv) (sess : String)
    (run tc : Option String) (hfs : String → Option Bytes) (st : Store)
    (counter : Nat) (p : String) (content : Bytes)
    (hp : p ≠ "") (hf : hfs p = some content)
    (hsize : env.maxBytes < content.length) :
    ingest_files env sess run tc hfs st counter [p] =
      { store := st, counter := counter,
        descriptors :=
          [{ id := none, name := basename p, mime := env.mimeOf (basename p),
             size := content.length, sha256 := none, created_at := env.nowIso,
             url := none,
             error := some ("File too large (> " ++ toString env.maxBytes ++
               " bytes).") }]
        deleted := [] } := by
  unfold ingest_files
  have hkeep : [p].filter (fun q => q ≠ "" && (hfs q).isSome) = [p] := by
    simp [List.filter, hp, hf]
  rw [hkeep]
  simp only [List.foldl]
  unfold ingest_step
  rw [hf]
  simp only
  rw [if_pos (by omega)]
  simp

lemma upsert_artifact_links (env : IngestEnv) (st : Store) (counter : Nat)
    (sha : String) (size : Nat) (mime filename created_at : String)
    (content : Bytes) :
    (upsert_artifact env st counter sha size mime filename created_at content).1.links =
      st.links := by
  unfold upsert_artifact
  cases h : st.artifacts.find? (fun r => r.sha256 = sha) <;> simp

/-- C1: two files with identical byte content, ingested in two separate
calls (any sessions, any run/tool-call ids, any order, possibly different
host staging areas), produce descriptors carrying the same `artifact_id` and
the same sha256; afterwards the `artifacts` table holds exactly one row for
that sha256, and each ingest call has inserted exactly one `links` row. -/
theorem C1_identical_content_dedup (env : IngestEnv) (st : Store) (counter1 : Nat)
    (sess1 sess2 : String) (run1 run2 tc1 tc2 : Option String)
    (hfs1 hfs2 : String → Option Bytes) (p1 p2 : String) (content : Bytes)
    (r1 r2 : IngestState)
    (hWF : WFStore st)
    (hp1 : p1 ≠ "") (hf1 : hfs1 p1 = some content)
    (hp2 : p2 ≠ "") (hf2 : hfs2 p2 = some content)
    (hsize : content.length ≤ env.maxBytes)
    (hr1 : r1 = ingest_files env sess1 run1 tc1 hfs1 st counter1 [p1])
    (hr2 : r2 = ingest_files env sess2 run2 tc2 hfs2 r1.store r1.counter [p2]) :
    ∃ aid,
      r1.descriptors.map (fun d => (d.id, d.sha256)) =
        [(some aid, some (env.shaFn content))] ∧
      r2.descriptors.map (fun d => (d.id, d.sha256)) =
        [(some aid, some (env.shaFn content))] ∧
      (r2.store.artifacts.filter (fun r => r.sha256 = env.shaFn content)).length = 1 ∧
      r1.store.links.length = st.links.length + 1 ∧
      r2.store.links.length = st.links.length + 2 := by
  obtain ⟨hWF1, hlinks1, ⟨row, hfindrow, hrowid, hrowsha⟩, hcount1⟩ :=
    upsert_artifact_spec env st counter1 (env.shaFn content) content.length
      (env.mimeOf (basename p1)) (basename p1) env.nowIso content hWF
  subst hr2
  subst hr1
  rw [ingest_files_single env sess1 run1 tc1 hfs1 st counter1 p1 content hp1 hf1 hsize]
  rw [ingest_files_single env sess2 run2 tc2 hfs2 _ _ p2 content hp2 hf2 hsize]
  have hfind2 :
      ({ (upsert_artifact env st counter1 (env.shaFn content) content.length
            (env.mimeOf (basename p1)) (basename p1) env.nowIso content).1 with
          links :=
            (upsert_artifact env st counter1 (env.shaFn content) content.length
              (env.mimeOf (basename p1)) (basename p1) env.nowIso content).1.links ++
            [⟨(upsert_artifact env st counter1 (env.shaFn content) content.length
                (env.mimeOf (basename p1)) (basename p1) env.nowIso content).2.2,
              sess1, run1, tc1, env.nowIso⟩] } :
          Store).artifacts.find? (fun r => r.sha256 = env.shaFn content) = some row :=
    hfindrow
  rw [upsert_artifact_found env _ _ (env.shaFn content) content.length
    (env.mimeOf (basename p2)) (basename p2) env.nowIso content row hfind2]
  refine ⟨(upsert_artifact env st counter1 (env.shaFn content) content.length
    (env.mimeOf (basename p1)) (basename p1) env.nowIso content).2.2, ?_, ?_, ?_, ?_, ?_⟩
  · simp
  · simp [hrowid]
  · exact hcount1
  · simp [upsert_artifact_links]
  · simp [upsert_artifact_links]

/-- C4: a file whose size is exactly the configured cap is ingested normally
(non-null id, its sha recorded, one new `links` row, source deleted); a file
one byte over the cap yields a descriptor with null id and sha and an error
message, writes nothing to the store, and its source is not deleted. -/
theorem C4_size_cap_boundary (env : IngestEnv) (st : Store) (counter : Nat)
    (sess : String) (run tc : Option String) :
    (∀ p content hfs, p ≠ "" → hfs p = some content →
      content.length = env.maxBytes →
      (∃ aid, (ingest_files env sess run tc hfs st counter [p]).descriptors.map
          (fun d => (d.id, d.sha256, d.error)) =
          [(some aid, some (env.shaFn content), none)]) ∧
      (ingest_files env sess run tc hfs st counter [p]).store.links.length =
        st.links.length + 1 ∧
      (ingest_files env sess run tc hfs st counter [p]).deleted = [p]) ∧
    (∀ p content hfs, p ≠ "" → hfs p = some content →
      content.length = env.maxBytes + 1 →
      (∃ msg, (ingest_files env sess run tc hfs st counter [p]).descriptors.map
          (fun d => (d.id, d.sha256, d.error)) = [(none, none, some msg)]) ∧
      (ingest_files env sess run tc hfs st counter [p]).store = st ∧
      (ingest_files env sess run tc hfs st counter [p]).deleted = []) := by
  constructor
  · intro p content hfs hp hf hlen
    rw [ingest_files_single env sess run tc hfs st counter p content hp hf (le_of_eq hlen)]
    refine ⟨⟨(upsert_artifact env st counter (env.shaFn content) content.length
      (env.mimeOf (basename p)) (basename p) env.nowIso content).2.2, by simp⟩, ?_, rfl⟩
    simp [upsert_artifact_links]
  · intro p content hfs hp hf hlen
    rw [ingest_files_single_toobig env sess run tc hfs st counter p content hp hf
      (by omega)]
    exact ⟨⟨"File too large (> " ++ toString env.maxBytes ++ " bytes).", by simp⟩, rfl, rfl⟩

/-- Concrete ingest environment for witnesses: cap of 1 MiB, trivial digest
and mime functions, deterministic UUID draws. -/
def toyEnv : IngestEnv where
  shaFn := fun bs => String.mk (natDigits bs.sum)
  mimeOf := fun _ => "application/octet-stream"
  urlOf := fun _ => none
  idBytes := fun k => List.replicate 16 k
  maxBytes := max_bytes 1
  nowIso := "2026-01-01T00:00:00+00:00"

/-- Host staging area of the first witness session. -/
def wFS1 : String → Option Bytes := fun p =>
  if p = "/stage/a.txt" then some [1, 2] else none

/-- Host staging area of the second witness session. -/
def wFS2 : String → Option Bytes := fun p =>
  if p = "/stage/b.txt" then some [1, 2] else none

/-- Host staging area holding one file of exactly 1 MiB. -/
def wFSCap : String → Option Bytes := fun p =>
  if p = "/stage/cap.bin" then some (List.replicate (max_bytes 1) 0) else none

/-- Host staging area holding one file of 1 MiB + 1 byte. -/
def wFSOver : String → Option Bytes := fun p =>
  if p = "/stage/over.bin" then some (List.replicate (max_bytes 1 + 1) 0) else none

/-- A fresh, empty artifact store. -/
def emptyStore : Store := ⟨[], [], []⟩

/-- Witness for C1 at concrete inputs. -/
theorem C1_identical_content_dedup_witness :
    ∃ aid,
      (ingest_files toyEnv "s1" none none wFS1 emptyStore 0
          ["/stage/a.txt"]).descriptors.map (fun d => (d.id, d.sha256)) =
        [(some aid, some (toyEnv.shaFn [1, 2]))] ∧
      (ingest_files toyEnv "s2" none none wFS2
          (ingest_files toyEnv "s1" none none wFS1 emptyStore 0 ["/stage/a.txt"]).store
          (ingest_files toyEnv "s1" none none wFS1 emptyStore 0 ["/stage/a.txt"]).counter
          ["/stage/b.txt"]).descriptors.map (fun d => (d.id, d.sha256)) =
        [(some aid, some (toyEnv.shaFn [1, 2]))] ∧
      ((ingest_files toyEnv "s2" none none wFS2
          (ingest_files toyEnv "s1" none none wFS1 emptyStore 0 ["/stage/a.txt"]).store
          (ingest_files toyEnv "s1" none none wFS1 emptyStore 0 ["/stage/a.txt"]).counter
          ["/stage/b.txt"]).store.artifacts.filter
            (fun r => r.sha256 = toyEnv.shaFn [1, 2])).length = 1 ∧
      (ingest_files toyEnv "s1" none none wFS1 emptyStore 0
          ["/stage/a.txt"]).store.links.length = emptyStore.links.length + 1 ∧
      (ingest_files toyEnv "s2" none none wFS2
          (ingest_files toyEnv "s1" none none wFS1 emptyStore 0 ["/stage/a.txt"]).store
          (ingest_files toyEnv "s1" none none wFS1 emptyStore 0 ["/stage/a.txt"]).counter
          ["/stage/b.txt"]).store.links.length = emptyStore.links.length + 2 := by
  exact C1_identical_content_dedup toyEnv emptyStore 0 "s1" "s2" none none none none
    wFS1 wFS2 "/stage/a.txt" "/stage/b.txt" [1, 2] _ _
    (by simp [WFStore, emptyStore])
    (by decide) (by simp [wFS1]) (by decide) (by simp [wFS2])
    (by norm_num [toyEnv, max_bytes]) rfl rfl

/-- Witness for C4 at concrete inputs: a 1 MiB file and a 1 MiB + 1 file
against a 1 MiB cap. -/
theorem C4_size_cap_boundary_witness :
    ((∃ aid, (ingest_files toyEnv "s" none none wFSCap emptyStore 0
        ["/stage/cap.bin"]).descriptors.map (fun d => (d.id, d.sha256, d.error)) =
        [(some aid, some (toyEnv.shaFn (List.replicate (max_bytes 1) 0)), none)]) ∧
      (ingest_files toyEnv "s" none none wFSCap emptyStore 0
        ["/stage/cap.bin"]).store.links.length = emptyStore.links.length + 1 ∧
      (ingest_files toyEnv "s" none none wFSCap emptyStore 0
        ["/stage/cap.bin"]).deleted = ["/stage/cap.bin"]) ∧
    ((∃ msg, (ingest_files toyEnv "s" none none wFSOver emptyStore 0
        ["/stage/over.bin"]).descriptors.map (fun d => (d.id, d.sha256, d.error)) =
        [(none, none, some msg)]) ∧
      (ingest_files toyEnv "s" none none wFSOver emptyStore 0
        ["/stage/over.bin"]).store = emptyStore ∧
      (ingest_files toyEnv "s" none none wFSOver emptyStore 0
        ["/stage/over.bin"]).deleted = []) := by
  have h := C4_size_cap_boundary toyEnv emptyStore 0 "s" none none
  exact ⟨h.1 "/stage/cap.bin" (List.replicate (max_bytes 1) 0) wFSCap (by decide)
      (by simp [wFSCap]) (by simp [toyEnv]),
    h.2 "/stage/over.bin" (List.replicate (max_bytes 1 + 1) 0) wFSOver (by decide)
      (by simp [wFSOver]) (by simp [toyEnv])⟩

/-! ### Artifact HTTP API (`langgraph_sandbox/artifacts/api.py`) -/

/-- Outcome of `GET /artifacts/{id}`: an `HTTPException` with a status code,
or a streamed `FileResponse` with blob path, media type and filename hint. -/
inductive HttpResp
  | err (status : Nat) (detail : String)
  | fileResp (path : String) (media_type : String) (filename : String)
deriving DecidableEq, Repr

/-- The detail strings of the three `RuntimeError`s raised by
`verify_token`, as they reach the 401 response. -/
def tokenErrorDetail : TokenError → String
  | .invalidFormat => "Invalid token format"
  | .invalidSignature => "Invalid token signature"
  | .expired => "Token expired"

/-- `api.py _blob_path_for_sha` relative to the blob root:
`<sha 0:2>/<sha 2:4>/<sha>`. -/
def blob_path_for_sha (sha : String) : String :=
  String.mk (sha.toList.take 2) ++ "/" ++ String.mk ((sha.toList.drop 2).take 2) ++
    "/" ++ sha

/-- `api.py download_artifact`: verify the token (401 on failure), compare
its embedded artifact id with the path id (403 on mismatch), look the row up
(404 if absent), check the blob (410 if missing), else stream the blob with
the stored mime (generic binary fallback) and a filename hint. -/
def download_artifact (hmacFn : Bytes → Bytes → Bytes) (secret : Bytes)
    (now : Nat) (st : Store) (artifact_id : List Char) (token : List Char) :
    HttpResp :=
  match verify_token hmacFn secret now token with
  | .error e => .err 401 (tokenErrorDetail e)
  | .ok (aid, _exp) =>
    if aid ≠ artifact_id then .err 403 "Token does not match artifact"
    else
      match st.artifacts.find? (fun r => r.id = String.mk artifact_id) with
      | none => .err 404 "Artifact not found"
      | some row =>
        match st.blobs.find? (fun pr => pr.1 = row.sha256) with
        | none => .err 410 "Blob missing (pruned?)"
        | some _ =>
            .fileResp (blob_path_for_sha row.sha256)
              (if row.mime = "" then "application/octet-stream" else row.mime)
              (if row.filename = "" then String.mk artifact_id else row.filename)

/-- C8: the download endpoint applies its checks in order with these
statuses: token failure gives 401 whatever the catalog contains; a valid
token for a different id gives 403 even when neither id has a catalog row;
a matching token for an uncatalogued id gives 404; a catalogued id whose
blob is missing gives 410; otherwise the blob is streamed with the stored
mime (generic binary when empty) and a filename hint. -/
theorem C8_download_check_order (hmacFn : Bytes → Bytes → Bytes) (secret : Bytes)
    (now : Nat) (st : Store) (artifact_id : List Char) :
    (∀ token e, verify_token hmacFn secret now token = .error e →
      download_artifact hmacFn secret now st artifact_id token =
        .err 401 (tokenErrorDetail e)) ∧
    (∀ token aid exp, verify_token hmacFn secret now token = .ok (aid, exp) →
      aid ≠ artifact_id →
      download_artifact hmacFn secret now st artifact_id token =
        .err 403 "Token does not match artifact") ∧
    (∀ token aid exp, verify_token hmacFn secret now token = .ok (aid, exp) →
      aid = artifact_id →
      st.artifacts.find? (fun r => r.id = String.mk artifact_id) = none →
      download_artifact hmacFn secret now st artifact_id token =
        .err 404 "Artifact not found") ∧
    (∀ token aid exp row, verify_token hmacFn secret now token = .ok (aid, exp) →
      aid = artifact_id →
      st.artifacts.find? (fun r => r.id = String.mk artifact_id) = some row →
      st.blobs.find? (fun pr => pr.1 = row.sha256) = none →
      download_artifact hmacFn secret now st artifact_id token =
        .err 410 "Blob missing (pruned?)") ∧
    (∀ token aid exp row blob, verify_token hmacFn secret now token = .ok (aid, exp) →
      aid = artifact_id →
      st.artifacts.find? (fun r => r.id = String.mk artifact_id) = some row →
      st.blobs.find? (fun pr => pr.1 = row.sha256) = some blob →
      download_artifact hmacFn secret now st artifact_id token =
        .fileResp (blob_path_for_sha row.sha256)
          (if row.mime = "" then "application/octet-stream" else row.mime)
          (if row.filename = "" then String.mk artifact_id else row.filename)) := by
  refine ⟨?_, ?_, ?_, ?_, ?_⟩
  · intro token e hv
    unfold download_artifact
    rw [hv]
  · intro token aid exp hv hne
    unfold download_artifact
    rw [hv]
    simp only
    rw [if_pos hne]
  · intro token aid exp hv heq hfind
    unfold download_artifact
    rw [hv]
    simp only
    rw [if_neg (by simp [heq]), hfind]
  · intro token aid exp row hv heq hfind hblob
    unfold download_artifact
    rw [hv]
    simp only
    rw [if_neg (by simp [heq]), hfind]
    simp only
    rw [hblob]
  · intro token aid exp row blob hv heq hfind hblob
    unfold download_artifact
    rw [hv]
    simp only
    rw [if_neg (by simp [heq]), hfind]
    simp only
    rw [hblob]

/-- Catalog row used by the API witnesses. -/
def apiRow : ArtifactRow := ⟨"art_a", "sh", 1, "text/csv", "a.csv", "t"⟩

/-- Store with the catalog row but no blob bytes (out-of-band deletion). -/
def apiStore410 : Store := ⟨[apiRow], [], []⟩

/-- Store with the catalog row and its blob. -/
def apiStore200 : Store := ⟨[apiRow], [], [("sh", [9])]⟩

/-- Witness for C8 at concrete inputs, one per status code. -/
theorem C8_download_check_order_witness :
    download_artifact toyHmac [5] 0 apiStore200 ("art_a".toList) ("x".toList) =
      .err 401 (tokenErrorDetail .invalidFormat) ∧
    download_artifact toyHmac [5] 0 apiStore200 ("art_a".toList)
        (create_token toyHmac [5] 10 ("art_b".toList) 0) =
      .err 403 "Token does not match artifact" ∧
    download_artifact toyHmac [5] 0 emptyStore ("art_a".toList)
        (create_token toyHmac [5] 10 ("art_a".toList) 0) =
      .err 404 "Artifact not found" ∧
    download_artifact toyHmac [5] 0 apiStore410 ("art_a".toList)
        (create_token toyHmac [5] 10 ("art_a".toList) 0) =
      .err 410 "Blob missing (pruned?)" ∧
    download_artifact toyHmac [5] 0 apiStore200 ("art_a".toList)
        (create_token toyHmac [5] 10 ("art_a".toList) 0) =
      .fileResp (blob_path_for_sha "sh") "text/csv" "a.csv" := by
  have h200 := C8_download_check_order toyHmac [5] 0 apiStore200 ("art_a".toList)
  have h404 := C8_download_check_order toyHmac [5] 0 emptyStore ("art_a".toList)
  have h410 := C8_download_check_order toyHmac [5] 0 apiStore410 ("art_a".toList)
  exact ⟨h200.1 _ .invalidFormat rfl,
    h200.2.1 _ ("art_b".toList) 10 rfl (by decide),
    h404.2.2.1 _ ("art_a".toList) 10 rfl rfl rfl,
    h410.2.2.2.1 _ ("art_a".toList) 10 apiRow rfl rfl rfl rfl,
    h200.2.2.2.2 _ ("art_a".toList) 10 apiRow ("sh", [9]) rfl rfl rfl rfl⟩

/-! ### Dataset cache (`langgraph_sandbox/dataset_manager/cache.py`)

The cache file's `"datasets"` array is a list of entries; the file I/O
(JSON codec, atomic temp-file rename) is the identity on that list. -/

/-- One entry of the per-session dataset cache. -/
structure DatasetEntry where
  id : String
  status : String
  timestamp : String
deriving DecidableEq, Repr

/-- `DatasetStatus.LOADED`. -/
def statusLOADED : String := "loaded"

/-- `DatasetStatus.PENDING`. -/
def statusPENDING : String := "pending"

/-- `DatasetStatus.FAILED`. -/
def statusFAILED : String := "failed"

/-- The `seen`-set loop of `cache.py read_entries`: keep the first entry for
each id. -/
def read_entries_aux (seen : List String) : List DatasetEntry → List DatasetEntry
  | [] => []
  | e :: rest =>
      if e.id ∈ seen then read_entries_aux seen rest
      else e :: read_entries_aux (e.id :: seen) rest

/-- `cache.py read_entries`: the raw file list, de-duplicated by id with the
first occurrence winning, order preserved. -/
def read_entries (data : List DatasetEntry) : List DatasetEntry :=
  read_entries_aux [] data

/-- The `seen`-set loop of `cache.py write_entries`: drop empty ids and
duplicates. -/
def write_entries_aux (seen : List String) : List DatasetEntry → List DatasetEntry
  | [] => []
  | e :: rest =>
      if e.id = "" ∨ e.id ∈ seen then write_entries_aux seen rest
      else e :: write_entries_aux (e.id :: seen) rest

/-- `cache.py write_entries`: the list as serialized back to the cache file
(de-duplicated, empty ids dropped; the atomic temp-file rename is the
identity on content). -/
def write_entries (entries : List DatasetEntry) : List DatasetEntry :=
  write_entries_aux [] entries

/-- `cache.py add_entry`: read (deduplicating), update the existing entry's
status and timestamp in place if the id is present, else append a new entry;
write back. -/
def add_entry (data : List DatasetEntry) (ds_id status now : String) :
    List DatasetEntry :=
  match (read_entries data).find? (fun e => e.id = ds_id) with
  | some _ =>
      write_entries ((read_entries data).map
        (fun e => if e.id = ds_id then { e with status := status, timestamp := now }
          else e))
  | none => write_entries (read_entries data ++ [⟨ds_id, status, now⟩])

/-- `cache.py update_entry_status` delegates to `add_entry`. -/
def update_entry_status (data : List DatasetEntry) (ds_id status now : String) :
    List DatasetEntry :=
  add_entry data ds_id status now

lemma read_entries_aux_mem {seen : List String} {l : List DatasetEntry}
    {e : DatasetEntry} (h : e ∈ read_entries_aux seen l) :
    e ∈ l ∧ e.id ∉ seen := by
  induction l generalizing seen with
  | nil => simp [read_entries_aux] at h
  | cons x rest ih =>
      unfold read_entries_aux at h
      split at h
      · obtain ⟨h1, h2⟩ := ih h
        exact ⟨by simp [h1], h2⟩
      · rename_i hx
        rcases List.mem_cons.mp h with rfl | hmem
        · exact ⟨by simp, hx⟩
        · obtain ⟨h1, h2⟩ := ih hmem
          simp only [List.mem_cons] at h2
          push_neg at h2
          exact ⟨by simp [h1], h2.2⟩

lemma read_entries_aux_nodup (seen : List String) (l : List DatasetEntry) :
    ((read_entries_aux seen l).map (fun e => e.id)).Nodup := by
  induction l generalizing seen with
  | nil => simp [read_entries_aux]
  | cons x rest ih =>
      unfold read_entries_aux
      split
      · exact ih seen
      · simp only [List.map_cons, List.nodup_cons]
        refine ⟨?_, ih (x.id :: seen)⟩
        intro hmem
        simp only [List.mem_map] at hmem
        obtain ⟨e, he, heid⟩ := hmem
        have := (read_entries_aux_mem he).2
        simp [heid] at this

lemma read_entries_aux_sublist (seen : List String) (l : List DatasetEntry) :
    (read_entries_aux seen l).Sublist l := by
  induction l generalizing seen with
  | nil => simp [read_entries_aux]
  | cons x rest ih =>
      unfold read_entries_aux
      split
      · exact (ih seen).cons x
      · exact (ih (x.id :: seen)).cons₂ x

lemma read_entries_aux_first {seen : List String} {l : List DatasetEntry}
    {e : DatasetEntry} (h : e ∈ read_entries_aux seen l) :
    l.find? (fun x => x.id = e.id) = some e := by
  induction l generalizing seen with
  | nil => simp [read_entries_aux] at h
  | cons x rest ih =>
      unfold read_entries_aux at h
      split at h
      · rename_i hx
        have hrec := ih h
        have hne : x.id ≠ e.id := by
          intro hxe
          exact (read_entries_aux_mem h).2 (by rw [← hxe] at *; exact hx)
        rw [List.find?_cons_of_neg _ (by simp [hne]), hrec]
      · rename_i hx
        rcases List.mem_cons.mp h with rfl | hmem
        · rw [List.find?_cons_of_pos _ (by simp)]
        · have hrec := ih hmem
          have hne : x.id ≠ e.id := by
            have h2 := (read_entries_aux_mem hmem).2
            simp only [List.mem_cons] at h2
            push_neg at h2
            exact fun hc => h2.1 hc.symm
          rw [List.find?_cons_of_neg _ (by simp [hne]), hrec]

lemma write_entries_aux_id (seen : List String) (l : List DatasetEntry)
    (hno : ∀ e ∈ l, e.id ≠ "") (hnd : (l.map (fun e => e.id)).Nodup)
    (hseen : ∀ e ∈ l, e.id ∉ seen) :
    write_entries_aux seen l = l := by
  induction l generalizing seen with
  | nil => simp [write_entries_aux]
  | cons x rest ih =>
      have hnd' : x.id ∉ rest.map (fun e => e.id) ∧
          (rest.map (fun e => e.id)).Nodup := by
        rw [List.map_cons, List.nodup_cons] at hnd
        exact hnd
      unfold write_entries_aux
      rw [if_neg]
      · congr 1
        apply ih
        · exact fun e he => hno e (by simp [he])
        · exact hnd'.2
        · intro e he
          simp only [List.mem_cons]
          push_neg
          refine ⟨?_, hseen e (by simp [he])⟩
          intro hc
          exact hnd'.1 (by rw [← hc]; exact List.mem_map_of_mem _ he)
      · push_neg
        exact ⟨hno x (by simp), hseen x (by simp)⟩

lemma write_entries_nodup_id (l : List DatasetEntry)
    (hno : ∀ e ∈ l, e.id ≠ "") (hnd : (l.map (fun e => e.id)).Nodup) :
    write_entries l = l :=
  write_entries_aux_id [] l hno hnd (by simp)

lemma find?_map_update (l : List DatasetEntry) (ds_id status now : String)
    (hmem : ds_id ∈ l.map (fun e => e.id)) :
    (l.map (fun e =>
      if e.id = ds_id then { e with status := status, timestamp := now }
      else e)).find? (fun e => e.id = ds_id) = some ⟨ds_id, status, now⟩ := by
  induction l with
  | nil => simp at hmem
  | cons x rest ih =>
      by_cases hx : x.id = ds_id
      · simp only [List.map_cons, if_pos hx]
        rw [List.find?_cons_of_pos _ (by simp [hx])]
        cases x
        simp_all
      · simp only [List.map_cons, if_neg hx]
        rw [List.find?_cons_of_neg _ (by simp [hx])]
        apply ih
        simp only [List.map_cons, List.mem_cons] at hmem
        rcases hmem with hmem | hmem
        · exact absurd hmem.symm hx
        · exact hmem

/-- C9: `read_entries` returns the cache entries in first-insertion order
with ids unique (first occurrence wins), and `add_entry` is idempotent with
respect to order: on a present id it rewrites that entry's status and
timestamp in place — same id sequence, no duplicate, all other entries
untouched — and on a fresh id it appends one entry at the end. -/
theorem C9_cache_order_and_idempotence (data : List DatasetEntry)
    (ds_id status now : String)
    (hno : ∀ e ∈ data, e.id ≠ "") :
    ((read_entries data).map (fun e => e.id)).Nodup ∧
    (read_entries data).Sublist data ∧
    (∀ e ∈ read_entries data, data.find? (fun x => x.id = e.id) = some e) ∧
    (ds_id ∈ (read_entries data).map (fun e => e.id) →
      (add_entry data ds_id status now).map (fun e => e.id) =
        (read_entries data).map (fun e => e.id) ∧
      (add_entry data ds_id status now).find? (fun e => e.id = ds_id) =
        some ⟨ds_id, status, now⟩ ∧
      ∀ e ∈ add_entry data ds_id status now, e.id ≠ ds_id →
        e ∈ read_entries data) ∧
    (ds_id ∉ (read_entries data).map (fun e => e.id) → ds_id ≠ "" →
      add_entry data ds_id status now =
        read_entries data ++ [⟨ds_id, status, now⟩]) := by
  have hnodup := read_entries_aux_nodup [] data
  have hsub := read_entries_aux_sublist [] data
  have hnoR : ∀ e ∈ read_entries data, e.id ≠ "" :=
    fun e he => hno e (hsub.subset he)
  refine ⟨hnodup, hsub, fun e he => read_entries_aux_first he, ?_, ?_⟩
  · intro hmem
    obtain ⟨e0, he0, he0id⟩ := List.mem_map.mp hmem
    have hfind : ∃ x, (read_entries data).find? (fun e => e.id = ds_id) = some x := by
      rw [← Option.isSome_iff_exists, List.find?_isSome]
      exact ⟨e0, he0, by simp [he0id]⟩
    obtain ⟨x0, hx0⟩ := hfind
    have hids : (List.map (fun e =>
        if e.id = ds_id then { e with status := status, timestamp := now }
        else e) (read_entries data)).map (fun e => e.id) =
        (read_entries data).map (fun e => e.id) := by
      rw [List.map_map]
      apply List.map_congr_left
      intro e _
      by_cases h : e.id = ds_id <;> simp [h]
    have hwrite : write_entries (List.map (fun e =>
        if e.id = ds_id then { e with status := status, timestamp := now }
        else e) (read_entries data)) =
        List.map (fun e =>
          if e.id = ds_id then { e with status := status, timestamp := now }
          else e) (read_entries data) := by
      apply write_entries_nodup_id
      · intro e he
        obtain ⟨e1, he1, rfl⟩ := List.mem_map.mp he
        have hds : ds_id ≠ "" := he0id ▸ hnoR e0 he0
        by_cases h : e1.id = ds_id <;> simp [h, hnoR e1 he1, hds]
      · rw [hids]; exact hnodup
    have hadd : add_entry data ds_id status now =
        List.map (fun e =>
          if e.id = ds_id then { e with status := status, timestamp := now }
          else e) (read_entries data) := by
      unfold add_entry
      rw [hx0]
      exact hwrite
    refine ⟨by rw [hadd, hids], by rw [hadd]; exact find?_map_update _ _ _ _ hmem, ?_⟩
    intro e he hene
    rw [hadd] at he
    obtain ⟨e1, he1, rfl⟩ := List.mem_map.mp he
    by_cases h : e1.id = ds_id
    · simp [h] at hene
    · simpa [h] using he1
  · intro hnotmem hne
    have hfind : (read_entries data).find? (fun e => e.id = ds_id) = none := by
      rw [List.find?_eq_none]
      intro e he
      simp only [decide_eq_true_eq]
      intro hc
      exact hnotmem (List.mem_map.mpr ⟨e, he, hc⟩)
    unfold add_entry
    rw [hfind]
    apply write_entries_nodup_id
    · intro e he
      rcases List.mem_append.mp he with he | he
      · exact hnoR e he
      · simp at he; simp [he, hne]
    · rw [List.map_append, List.nodup_append]
      refine ⟨hnodup, by simp, ?_⟩
      intro a ha
      simp only [List.map_cons, List.map_nil, List.mem_cons, List.not_mem_nil,
        or_false]
      intro hc
      subst hc
      exact hnotmem ha

/-- Cache file with a duplicated id, for the C9 witness. -/
def wData : List DatasetEntry :=
  [⟨"a", statusPENDING, "t1"⟩, ⟨"b", statusPENDING, "t2"⟩, ⟨"a", statusLOADED, "t3"⟩]

/-- Witness for C9 at a concrete cache state. -/
theorem C9_cache_order_and_idempotence_witness :
    ((read_entries wData).map (fun e => e.id)).Nodup ∧
    (add_entry wData "a" statusLOADED "t9").map (fun e => e.id) =
      (read_entries wData).map (fun e => e.id) ∧
    (add_entry wData "a" statusLOADED "t9").find? (fun e => e.id = "a") =
      some ⟨"a", statusLOADED, "t9"⟩ ∧
    add_entry wData "c" statusPENDING "t9" =
      read_entries wData ++ [⟨"c", statusPENDING, "t9"⟩] := by
  have h := C9_cache_order_and_idempotence wData "a" statusLOADED "t9" (by decide)
  have h2 := C9_cache_order_and_idempotence wData "c" statusPENDING "t9" (by decide)
  exact ⟨h.1, (h.2.2.2.1 (by decide)).1, (h.2.2.2.1 (by decide)).2.1,
    h2.2.2.2.2 (by decide) (by decide)⟩

/-! ### Session registry and idle eviction
(`langgraph_sandbox/sandbox/session_manager.py`)

The registry `self.sessions` is an association list keyed by session key;
wall-clock times are integers (`time.time()` seconds).  `_sweep_idle` is
modelled together with the list of container ids whose removal it attempts;
`start` and `exec` are modelled by their effect on the registry. -/

/-- Where `/session` lives (`session_manager.py SessionStorage`). -/
inductive SessionStorage
  | TMPFS
  | BIND
deriving DecidableEq, Repr

/-- How datasets are exposed (`session_manager.py`/`config.py`
`DatasetAccess`). -/
inductive DatasetAccess
  | NONE
  | LOCAL_RO
  | API
  | HYBRID
deriving DecidableEq, Repr

/-- `IDLE_TIMEOUT_SECS = 45 * 60`. -/
def IDLE_TIMEOUT_SECS : Int := 45 * 60

/-- `session_manager.py SessionInfo` (the `last_used` field is set to
`time.time()` at construction). -/
structure SessionInfo where
  container_id : String
  host_port : Nat
  session_dir : Option String
  session_storage : SessionStorage
  last_used : Int
deriving DecidableEq, Repr

/-- The in-memory registry `self.sessions`. -/
abbrev Registry := List (String × SessionInfo)

/-- `SessionManager._sweep_idle`: drop every session with
`now - last_used > IDLE_TIMEOUT_SECS`; also return the container ids whose
(best-effort) removal is attempted. -/
def sweep_idle (now : Int) (sessions : Registry) : Registry × List String :=
  (sessions.filter (fun pr => ¬ now - pr.2.last_used > IDLE_TIMEOUT_SECS),
   (sessions.filter (fun pr => now - pr.2.last_used > IDLE_TIMEOUT_SECS)).map
     (fun pr => pr.2.container_id))

/-- The registry effect of `SessionManager.start`: sweep idles first, return
unchanged if the key is registered, else register the (created or
reattached) container with `last_used = now`. -/
def start_registry (now : Int) (sessions : Registry) (session_key : String)
    (container_id : String) (host_port : Nat) (session_dir : Option String)
    (mode : SessionStorage) : Registry × List String :=
  let swept := sweep_idle now sessions
  if (swept.1.find? (fun pr => pr.1 = session_key)).isSome then swept
  else
    (swept.1 ++ [(session_key, ⟨container_id, host_port, session_dir, mode, now⟩)],
     swept.2)

/-- The registry effect of `SessionManager.exec`: `none` on an unknown key
(`RuntimeError`), else update that session's `last_used`.  No idle sweep
happens here. -/
def exec_registry (now : Int) (sessions : Registry) (session_key : String) :
    Option Registry :=
  match sessions.find? (fun pr => pr.1 = session_key) with
  | none => none
  | some _ =>
      some (sessions.map (fun pr =>
        if pr.1 = session_key then (pr.1, { pr.2 with last_used := now }) else pr))

lemma keys_nodup_eq {l : Registry} (hnd : (l.map Prod.fst).Nodup)
    {k : String} {a b : SessionInfo} (ha : (k, a) ∈ l) (hb : (k, b) ∈ l) :
    a = b := by
  induction l with
  | nil => simp at ha
  | cons x t ih =>
      rw [List.map_cons, List.nodup_cons] at hnd
      rcases List.mem_cons.mp ha with rfl | ha' <;>
        rcases List.mem_cons.mp hb with hb' | hb'
      · simpa using hb'.symm
      · exact absurd (List.mem_map_of_mem Prod.fst hb') (by simpa using hnd.1)
      · rw [← hb'] at hnd
        exact absurd (List.mem_map_of_mem Prod.fst ha') (by simpa using hnd.1)
      · exact ih hnd.2 ha' hb'

/-- C6 counterexample: `exec` performs no idle sweep.  With session `s1`
idle for far longer than the 45-minute timeout and a fresh session `s2`,
an `exec` on `s2` succeeds yet leaves `s1` registered, although the claim
requires every idle session to be evicted on every `exec` call. -/
theorem C6_counterexample_exec_does_not_sweep :
    ∃ m, exec_registry 1000000
        [("s1", ⟨"c1", 9000, none, SessionStorage.TMPFS, 0⟩),
         ("s2", ⟨"c2", 9000, none, SessionStorage.TMPFS, 999999⟩)] "s2" = some m ∧
      (m.find? (fun pr => pr.1 = "s1")).isSome = true ∧
      (1000000 : Int) - 0 > IDLE_TIMEOUT_SECS := by
  refine ⟨_, rfl, ?_, by decide⟩
  rfl

/-- C6 (amended): idle sessions are evicted on every `start` call — any
registered session whose `last_used` is older than the 45-minute timeout is
dropped from the registry (when its key is not the one being started) and
its container removal is attempted, while fresh sessions survive; `exec`
performs no sweep: it only refreshes `last_used` of its own key and leaves
every other session, idle or not, registered unchanged. -/
theorem C6_idle_eviction_on_start_only (now : Int) (sessions : Registry)
    (key container_id : String) (host_port : Nat) (session_dir : Option String)
    (mode : SessionStorage)
    (hnd : (sessions.map Prod.fst).Nodup) :
    (∀ sid info, (sid, info) ∈ sessions →
      now - info.last_used > IDLE_TIMEOUT_SECS → sid ≠ key →
      ((start_registry now sessions key container_id host_port session_dir
          mode).1.find? (fun pr => pr.1 = sid)) = none) ∧
    (∀ sid info, (sid, info) ∈ sessions →
      now - info.last_used > IDLE_TIMEOUT_SECS →
      info.container_id ∈
        (start_registry now sessions key container_id host_port session_dir mode).2) ∧
    (∀ sid info, (sid, info) ∈ sessions →
      ¬ now - info.last_used > IDLE_TIMEOUT_SECS →
      (sid, info) ∈
        (start_registry now sessions key container_id host_port session_dir mode).1) ∧
    (∀ key' m, exec_registry now sessions key' = some m →
      ∀ sid info, (sid, info) ∈ sessions → sid ≠ key' → (sid, info) ∈ m) := by
  refine ⟨?_, ?_, ?_, ?_⟩
  · intro sid info hmem hidle hne
    rw [List.find?_eq_none]
    intro pr hpr
    simp only [decide_eq_true_eq]
    intro hpr1
    unfold start_registry at hpr
    by_cases hreg : ((sweep_idle now sessions).1.find?
        (fun pr => pr.1 = key)).isSome = true
    · rw [if_pos hreg] at hpr
      unfold sweep_idle at hpr
      simp only [List.mem_filter, decide_eq_true_eq] at hpr
      have heq : pr.2 = info := by
        apply keys_nodup_eq hnd _ hmem
        rw [← hpr1]
        exact hpr.1
      rw [heq] at hpr
      exact hpr.2 hidle
    · rw [if_neg hreg] at hpr
      rcases List.mem_append.mp hpr with hpr' | hpr'
      · unfold sweep_idle at hpr'
        simp only [List.mem_filter, decide_eq_true_eq] at hpr'
        have heq : pr.2 = info := by
          apply keys_nodup_eq hnd _ hmem
          rw [← hpr1]
          exact hpr'.1
        rw [heq] at hpr'
        exact hpr'.2 hidle
      · simp only [List.mem_singleton] at hpr'
        subst hpr'
        exact hne hpr1.symm
  · intro sid info hmem hidle
    have : (sid, info) ∈ sessions.filter
        (fun pr => now - pr.2.last_used > IDLE_TIMEOUT_SECS) :=
      List.mem_filter.mpr ⟨hmem, by simpa using hidle⟩
    unfold start_registry sweep_idle
    by_cases hreg : ((sweep_idle now sessions).1.find?
        (fun pr => pr.1 = key)).isSome = true
    · rw [if_pos]
      · exact List.mem_map.mpr ⟨(sid, info), this, rfl⟩
      · unfold sweep_idle at hreg
        exact hreg
    · rw [if_neg]
      · exact List.mem_map.mpr ⟨(sid, info), this, rfl⟩
      · unfold sweep_idle at hreg
        exact hreg
  · intro sid info hmem hfresh
    have hkeep : (sid, info) ∈ sessions.filter
        (fun pr => ¬ now - pr.2.last_used > IDLE_TIMEOUT_SECS) :=
      List.mem_filter.mpr ⟨hmem, by simpa using hfresh⟩
    unfold start_registry
    by_cases hreg : ((sweep_idle now sessions).1.find?
        (fun pr => pr.1 = key)).isSome = true
    · rw [if_pos hreg]
      exact hkeep
    · rw [if_neg hreg]
      exact List.mem_append.mpr (Or.inl hkeep)
  · intro key' m hexec sid info hmem hne
    unfold exec_registry at hexec
    cases hfind : sessions.find? (fun pr => pr.1 = key') with
    | none => rw [hfind] at hexec; exact absurd hexec (by simp)
    | some x =>
        rw [hfind] at hexec
        simp only [Option.some.injEq] at hexec
        subst hexec
        refine List.mem_map.mpr ⟨(sid, info), hmem, ?_⟩
        rw [if_neg (by simpa using hne)]

/-- Witness for the amended C6 theorem at a concrete registry. -/
theorem C6_idle_eviction_on_start_only_witness :
    ((start_registry 1000000
        [("s1", ⟨"c1", 9000, none, SessionStorage.TMPFS, 0⟩),
         ("s2", ⟨"c2", 9000, none, SessionStorage.TMPFS, 999999⟩)] "s3" "c3" 9000
        none SessionStorage.TMPFS).1.find? (fun pr => pr.1 = "s1")) = none ∧
    "c1" ∈ (start_registry 1000000
        [("s1", ⟨"c1", 9000, none, SessionStorage.TMPFS, 0⟩),
         ("s2", ⟨"c2", 9000, none, SessionStorage.TMPFS, 999999⟩)] "s3" "c3" 9000
        none SessionStorage.TMPFS).2 ∧
    ("s2", (⟨"c2", 9000, none, SessionStorage.TMPFS, 999999⟩ : SessionInfo)) ∈
      (start_registry 1000000
        [("s1", ⟨"c1", 9000, none, SessionStorage.TMPFS, 0⟩),
         ("s2", ⟨"c2", 9000, none, SessionStorage.TMPFS, 999999⟩)] "s3" "c3" 9000
        none SessionStorage.TMPFS).1 := by
  have h := C6_idle_eviction_on_start_only 1000000
    [("s1", ⟨"c1", 9000, none, SessionStorage.TMPFS, 0⟩),
     ("s2", ⟨"c2", 9000, none, SessionStorage.TMPFS, 999999⟩)] "s3" "c3" 9000 none
    SessionStorage.TMPFS (by decide)
  exact ⟨h.1 "s1" ⟨"c1", 9000, none, SessionStorage.TMPFS, 0⟩ (by decide) (by decide)
      (by decide),
    h.2.1 "s1" ⟨"c1", 9000, none, SessionStorage.TMPFS, 0⟩ (by decide) (by decide),
    h.2.2.1 "s2" ⟨"c2", 9000, none, SessionStorage.TMPFS, 999999⟩ (by decide)
      (by decide)⟩

/-! ### Dataset staging and sync
(`langgraph_sandbox/dataset_manager/staging.py`, `sync.py`, `config.py`)

The container filesystem is an association list from absolute path to bytes.
`io.py put_bytes` is modelled by its documented contract — atomically
replace the file at the given path, rejecting empty or directory-like
paths (the source file holds two divergent drafts of the transport,
tar-based and base64-based, both with that contract). -/

/-- The `Config` fields the staging pipeline reads
(`container_data_staged = container_data_ro = "/data"` in the source). -/
structure Config where
  session_storage : SessionStorage
  dataset_access : DatasetAccess
  container_data_staged : String
  container_data_ro : String
deriving DecidableEq, Repr

/-- `config.py Config.is_tmpfs`. -/
def Config.is_tmpfs (cfg : Config) : Bool :=
  decide (cfg.session_storage = SessionStorage.TMPFS)

/-- `config.py Config.uses_api_staging`. -/
def Config.uses_api_staging (cfg : Config) : Bool :=
  decide (cfg.dataset_access = DatasetAccess.API ∨
    cfg.dataset_access = DatasetAccess.HYBRID)

/-- `config.py Config.uses_hybrid_mode`. -/
def Config.uses_hybrid_mode (cfg : Config) : Bool :=
  decide (cfg.dataset_access = DatasetAccess.HYBRID)

/-- In-container filesystem: absolute path to file content. -/
abbrev ContainerFS := List (String × Bytes)

/-- File lookup by absolute path. -/
def lookupFS (fs : ContainerFS) (path : String) : Option Bytes :=
  (fs.find? (fun pr => pr.1 = path)).map (fun pr => pr.2)

/-- A path `put_bytes` refuses: empty, or ending in `/`. -/
def path_is_dirlike (p : String) : Bool :=
  p = "" || p.toList.getLast? = some '/'

/-- `io.py put_bytes`: atomically replace the file at `container_path` with
`data` (parent directories created); fails on a directory-like path. -/
def put_bytes (fs : ContainerFS) (container_path : String) (data : Bytes) :
    Option ContainerFS :=
  if path_is_dirlike container_path then none
  else some (fs.filter (fun pr => pr.1 ≠ container_path) ++ [(container_path, data)])

/-- `staging.py container_staged_path`: `<container_data_staged>/<id>.parquet`. -/
def container_staged_path (cfg : Config) (ds_id : String) : String :=
  cfg.container_data_staged ++ "/" ++ ds_id ++ ".parquet"

/-- `staging.py container_ro_path`: `<container_data_ro>/<id>.parquet`. -/
def container_ro_path (cfg : Config) (ds_id : String) : String :=
  cfg.container_data_ro ++ "/" ++ ds_id ++ ".parquet"

/-- `staging.py host_bind_data_path`:
`<sessions_root>/<session_id>/data/<id>.parquet` on the host. -/
def host_bind_data_path (sessions_root session_id ds_id : String) : String :=
  sessions_root ++ "/" ++ session_id ++ "/data/" ++ ds_id ++ ".parquet"

/-- Modelled from the spec: `container_hybrid_path` is imported by `sync.py`
from `staging.py` but not defined there; per spec §4.7 a hybrid-local
dataset resolves to the read-only bound dataset directory. -/
def container_hybrid_path (cfg : Config) (ds_id : String) : String :=
  container_ro_path cfg ds_id

/-- Result of `staging.py stage_dataset_into_sandbox`: the updated container
and host filesystems plus the returned descriptor fields. -/
structure StagingResult where
  containerFS : ContainerFS
  hostFiles : List (String × Bytes)
  desc_id : String
  path_in_container : String
deriving DecidableEq, Repr

/-- `staging.py stage_dataset_into_sandbox`: refuse outside API mode; fetch;
in TMPFS write the bytes to `/session/data/<id>.parquet` inside the
container via `put_bytes`; in BIND write them atomically to the bound host
path.  The returned `path_in_container` is `container_staged_path`. -/
def stage_dataset_into_sandbox (cfg : Config) (sessions_root session_id : String)
    (fetchFn : String → Bytes) (fs : ContainerFS)
    (hostFiles : List (String × Bytes)) (ds_id : String) :
    Except String StagingResult :=
  if ¬ cfg.uses_api_staging then
    .error "stage_dataset_into_sandbox should only be called in API mode"
  else
    let data := fetchFn ds_id
    if cfg.is_tmpfs then
      match put_bytes fs ("/session/data/" ++ ds_id ++ ".parquet") data with
      | none => .error "put_bytes: container_path must be a file path"
      | some fs' => .ok ⟨fs', hostFiles, ds_id, container_staged_path cfg ds_id⟩
    else
      .ok ⟨fs,
        hostFiles.filter
            (fun pr => pr.1 ≠ host_bind_data_path sessions_root session_id ds_id) ++
          [(host_bind_data_path sessions_root session_id ds_id, data)],
        ds_id, container_staged_path cfg ds_id⟩

/-- The state threaded through the sync driver: both filesystems and the
session's cache file content. -/
structure SyncState where
  containerFS : ContainerFS
  hostFiles : List (String × Bytes)
  cache : List DatasetEntry
deriving DecidableEq, Repr

/-- `sync.py load_pending_datasets`: per pending id, resolve hybrid-local
datasets by path, else stage in API mode (marking `LOADED` on success and
`FAILED` before re-raising on error), else resolve the read-only path and
mark `LOADED`; collect `{id, path_in_container}` descriptors in order.  On
error the updated state travels with the error, since the cache file lives
on disk. -/
def load_pending_datasets (cfg : Config) (sessions_root session_id : String)
    (fetchFn : String → Bytes) (hybridLocalHas : String → Bool) (now : String)
    (s : SyncState) :
    List String → Except (String × SyncState) (SyncState × List (String × String))
  | [] => .ok (s, [])
  | ds_id :: rest =>
      if cfg.uses_hybrid_mode && hybridLocalHas ds_id then
        let s' : SyncState :=
          { s with cache := update_entry_status s.cache ds_id statusLOADED now }
        match load_pending_datasets cfg sessions_root session_id fetchFn
            hybridLocalHas now s' rest with
        | .error e => .error e
        | .ok (sfin, descs) =>
            .ok (sfin, (ds_id, container_hybrid_path cfg ds_id) :: descs)
      else if cfg.uses_api_staging then
        match stage_dataset_into_sandbox cfg sessions_root session_id fetchFn
            s.containerFS s.hostFiles ds_id with
        | .error e =>
            .error ("Failed to load dataset " ++ ds_id ++ ": " ++ e,
              { s with cache := update_entry_status s.cache ds_id statusFAILED now })
        | .ok r =>
            let s' : SyncState :=
              ⟨r.containerFS, r.hostFiles,
                update_entry_status s.cache ds_id statusLOADED now⟩
            match load_pending_datasets cfg sessions_root session_id fetchFn
                hybridLocalHas now s' rest with
            | .error e => .error e
            | .ok (sfin, descs) => .ok (sfin, (ds_id, r.path_in_container) :: descs)
      else
        let s' : SyncState :=
          { s with cache := update_entry_status s.cache ds_id statusLOADED now }
        match load_pending_datasets cfg sessions_root session_id fetchFn
            hybridLocalHas now s' rest with
        | .error e => .error e
        | .ok (sfin, descs) =>
            .ok (sfin, (ds_id, container_ro_path cfg ds_id) :: descs)

lemma add_entry_eq_found (data : List DatasetEntry) (ds_id status now : String)
    (x0 : DatasetEntry)
    (hx0 : (read_entries data).find? (fun e => e.id = ds_id) = some x0) :
    add_entry data ds_id status now =
      write_entries ((read_entries data).map
        (fun e => if e.id = ds_id then { e with status := status, timestamp := now }
          else e)) := by
  unfold add_entry
  rw [hx0]

lemma add_entry_eq_new (data : List DatasetEntry) (ds_id status now : String)
    (hx0 : (read_entries data).find? (fun e => e.id = ds_id) = none) :
    add_entry data ds_id status now =
      write_entries (read_entries data ++ [⟨ds_id, status, now⟩]) := by
  unfold add_entry
  rw [hx0]

lemma add_entry_find (data : List DatasetEntry) (ds_id status now : String)
    (hne : ds_id ≠ "") (hno : ∀ e ∈ data, e.id ≠ "") :
    (add_entry data ds_id status now).find? (fun e => e.id = ds_id) =
      some ⟨ds_id, status, now⟩ := by
  have hnoR : ∀ e ∈ read_entries data, e.id ≠ "" :=
    fun e he => hno e ((read_entries_aux_sublist [] data).subset he)
  have hnodup := read_entries_aux_nodup [] data
  cases hx0 : (read_entries data).find? (fun e => e.id = ds_id) with
  | some x0 =>
      have hmem : ds_id ∈ (read_entries data).map (fun e => e.id) := by
        have hm := List.mem_of_find?_eq_some hx0
        have hp := List.find?_some hx0
        simp only [decide_eq_true_eq] at hp
        exact List.mem_map.mpr ⟨x0, hm, hp⟩
      rw [add_entry_eq_found data ds_id status now x0 hx0, write_entries_nodup_id]
      · exact find?_map_update _ _ _ _ hmem
      · intro e he
        obtain ⟨e1, he1, rfl⟩ := List.mem_map.mp he
        by_cases h : e1.id = ds_id <;> simp [h, hne, hnoR e1 he1]
      · have hids : (List.map (fun e =>
            if e.id = ds_id then { e with status := status, timestamp := now }
            else e) (read_entries data)).map (fun e => e.id) =
            (read_entries data).map (fun e => e.id) := by
          rw [List.map_map]
          apply List.map_congr_left
          intro e _
          by_cases h : e.id = ds_id <;> simp [h]
        rw [hids]
        exact hnodup
  | none =>
      have hnotmem : ds_id ∉ (read_entries data).map (fun e => e.id) := by
        intro hc
        obtain ⟨e, he, heid⟩ := List.mem_map.mp hc
        have := List.find?_eq_none.mp hx0 e he
        simp [heid] at this
      rw [add_entry_eq_new data ds_id status now hx0, write_entries_nodup_id]
      · rw [List.find?_append, hx0]
        simp
      · intro e he
        rcases List.mem_append.mp he with he | he
        · exact hnoR e he
        · simp at he; simp [he, hne]
      · rw [List.map_append, List.nodup_append]
        refine ⟨hnodup, by simp, ?_⟩
        intro a ha
        simp only [List.map_cons, List.map_nil, List.mem_cons, List.not_mem_nil,
          or_false]
        intro hc
        subst hc
        exact hnotmem ha

lemma lookupFS_update_self (fs : ContainerFS) (p : String) (d : Bytes) :
    lookupFS (fs.filter (fun pr => pr.1 ≠ p) ++ [(p, d)]) p = some d := by
  unfold lookupFS
  rw [List.find?_append]
  have h1 : (fs.filter (fun pr => pr.1 ≠ p)).find? (fun pr => pr.1 = p) = none := by
    rw [List.find?_eq_none]
    intro pr hpr
    have := (List.mem_filter.mp hpr).2
    simpa using this
  rw [h1]
  simp [List.find?]

lemma lookupFS_update_other (fs : ContainerFS) (p : String) (d : Bytes)
    (q : String) (hne : q ≠ p) :
    lookupFS (fs.filter (fun pr => pr.1 ≠ p) ++ [(p, d)]) q = lookupFS fs q := by
  unfold lookupFS
  rw [List.find?_append]
  have hfilter : (fs.filter (fun pr => pr.1 ≠ p)).find? (fun pr => pr.1 = q) =
      fs.find? (fun pr => pr.1 = q) := by
    induction fs with
    | nil => simp
    | cons x t ih =>
        by_cases hx : x.1 = p
        · rw [List.filter_cons_of_neg (by simp [hx]),
            List.find?_cons_of_neg _ (by simp [hx, Ne.symm hne]), ih]
        · rw [List.filter_cons_of_pos (by simp [hx])]
          by_cases hq : x.1 = q
          · rw [List.find?_cons_of_pos _ (by simp [hq]),
              List.find?_cons_of_pos _ (by simp [hq])]
          · rw [List.find?_cons_of_neg _ (by simp [hq]),
              List.find?_cons_of_neg _ (by simp [hq]), ih]
  rw [hfilter]
  cases hfs : fs.find? (fun pr => pr.1 = q) with
  | some x => simp
  | none => simp [List.find?, Ne.symm hne]

lemma parquet_path_not_dirlike (pre ds_id : String) :
    path_is_dirlike (pre ++ ds_id ++ ".parquet") = false := by
  unfold path_is_dirlike
  have hdata : (pre ++ ds_id ++ ".parquet").toList =
      (pre.toList ++ ds_id.toList) ++ ".parquet".toList := by
    simp [String.toList, String.data_append]
  have h7 : (".parquet".toList).getLast? = some 't' := by decide
  have hlast : (pre ++ ds_id ++ ".parquet").toList.getLast? = some 't' := by
    rw [hdata, List.getLast?_append, h7]
    rfl
  have hne : pre ++ ds_id ++ ".parquet" ≠ "" := by
    intro hc
    have : (pre ++ ds_id ++ ".parquet").toList = [] := by rw [hc]; rfl
    rw [hdata] at this
    simp at this
  simp [hlast, hne]

lemma staged_path_ne_session_path (ds_id : String) :
    "/data/" ++ ds_id ++ ".parquet" ≠ "/session/data/" ++ ds_id ++ ".parquet" := by
  intro hc
  have := congrArg String.length hc
  simp [String.length_append] at this
  exact absurd this (by decide)

/-- TMPFS + API configuration, as in the source defaults. -/
def cfgTA : Config := ⟨SessionStorage.TMPFS, DatasetAccess.API, "/data", "/data"⟩

/-- C5 counterexample: in API + TMPFS mode the sync driver stages `d1`
successfully — descriptor `path_in_container` is `/data/d1.parquet` and the
cache entry flips to `LOADED` — but the fetched bytes are written by
`put_bytes` to `/session/data/d1.parquet`, and nothing exists at
`/data/d1.parquet`, contradicting the claim that the bytes are placed at the
`/data` path. -/
theorem C5_counterexample_bytes_not_at_data_path :
    ∃ sOut descs,
      load_pending_datasets cfgTA "./sessions" "sid" (fun _ => [80, 75])
          (fun _ => false) "t1" ⟨[], [], [⟨"d1", statusPENDING, "t0"⟩]⟩ ["d1"] =
        .ok (sOut, descs) ∧
      descs = [("d1", "/data/d1.parquet")] ∧
      lookupFS sOut.containerFS "/data/d1.parquet" = none ∧
      lookupFS sOut.containerFS "/session/data/d1.parquet" = some [80, 75] ∧
      sOut.cache.find? (fun e => e.id = "d1") =
        some ⟨"d1", statusLOADED, "t1"⟩ := by
  exact ⟨_, _, rfl, rfl, rfl, rfl, rfl⟩

/-- C5 (amended): in API dataset-access mode with TMPFS session storage,
staging a dataset id writes the fetched bytes to
`/session/data/<ds_id>.parquet` inside the container via `put_bytes`
(leaving the `/data/<ds_id>.parquet` path untouched), the sync driver flips
the cache entry to `LOADED`, and the descriptor's `path_in_container` is
`container_staged_path`, i.e. `/data/<ds_id>.parquet`. -/
theorem C5_api_tmpfs_staging (cfg : Config) (sroot sid ds_id : String)
    (fetchFn : String → Bytes) (hybridHas : String → Bool) (now : String)
    (s : SyncState)
    (hmode : cfg.session_storage = SessionStorage.TMPFS)
    (hds : cfg.dataset_access = DatasetAccess.API)
    (hstaged : cfg.container_data_staged = "/data")
    (hdsid : ds_id ≠ "") (hnoempty : ∀ e ∈ s.cache, e.id ≠ "") :
    ∃ sOut,
      load_pending_datasets cfg sroot sid fetchFn hybridHas now s [ds_id] =
        .ok (sOut, [(ds_id, "/data/" ++ ds_id ++ ".parquet")]) ∧
      lookupFS sOut.containerFS ("/session/data/" ++ ds_id ++ ".parquet") =
        some (fetchFn ds_id) ∧
      lookupFS sOut.containerFS ("/data/" ++ ds_id ++ ".parquet") =
        lookupFS s.containerFS ("/data/" ++ ds_id ++ ".parquet") ∧
      sOut.cache.find? (fun e => e.id = ds_id) =
        some ⟨ds_id, statusLOADED, now⟩ ∧
      sOut.hostFiles = s.hostFiles := by
  have hhyb : cfg.uses_hybrid_mode = false := by
    simp [Config.uses_hybrid_mode, hds]
  have hapi : cfg.uses_api_staging = true := by
    simp [Config.uses_api_staging, hds]
  have htmp : cfg.is_tmpfs = true := by
    simp [Config.is_tmpfs, hmode]
  have hput : put_bytes s.containerFS ("/session/data/" ++ ds_id ++ ".parquet")
      (fetchFn ds_id) =
      some (s.containerFS.filter
          (fun pr => pr.1 ≠ "/session/data/" ++ ds_id ++ ".parquet") ++
        [("/session/data/" ++ ds_id ++ ".parquet", fetchFn ds_id)]) := by
    unfold put_bytes
    rw [parquet_path_not_dirlike]
    simp
  have hstage : stage_dataset_into_sandbox cfg sroot sid fetchFn s.containerFS
      s.hostFiles ds_id =
      .ok ⟨s.containerFS.filter
            (fun pr => pr.1 ≠ "/session/data/" ++ ds_id ++ ".parquet") ++
          [("/session/data/" ++ ds_id ++ ".parquet", fetchFn ds_id)],
        s.hostFiles, ds_id, container_staged_path cfg ds_id⟩ := by
    unfold stage_dataset_into_sandbox
    rw [hapi, htmp]
    simp only [Bool.not_true, not_true_eq_false, if_neg, if_true, if_pos]
    rw [hput]
    simp
  have hpath : container_staged_path cfg ds_id = "/data/" ++ ds_id ++ ".parquet" := by
    unfold container_staged_path
    rw [hstaged, show ("/data" ++ "/" : String) = "/data/" from by decide]
  refine ⟨⟨s.containerFS.filter
        (fun pr => pr.1 ≠ "/session/data/" ++ ds_id ++ ".parquet") ++
      [("/session/data/" ++ ds_id ++ ".parquet", fetchFn ds_id)],
    s.hostFiles, update_entry_status s.cache ds_id statusLOADED now⟩, ?_, ?_, ?_, ?_, rfl⟩
  · unfold load_pending_datasets
    rw [hhyb]
    simp only [Bool.false_and, Bool.false_eq_true, if_false]
    rw [hapi]
    simp only [if_true]
    rw [hstage]
    simp only
    unfold load_pending_datasets
    simp only
    rw [hpath]
  · exact lookupFS_update_self _ _ _
  · exact lookupFS_update_other _ _ _ _ (staged_path_ne_session_path ds_id)
  · exact add_entry_find s.cache ds_id statusLOADED now hdsid hnoempty

/-- Witness for the amended C5 theorem at concrete inputs. -/
theorem C5_api_tmpfs_staging_witness :
    ∃ sOut,
      load_pending_datasets cfgTA "./sessions" "sid" (fun _ => [80, 75])
          (fun _ => false) "t1" ⟨[], [], [⟨"d1", statusPENDING, "t0"⟩]⟩ ["d1"] =
        .ok (sOut, [("d1", "/data/" ++ "d1" ++ ".parquet")]) ∧
      lookupFS sOut.containerFS ("/session/data/" ++ "d1" ++ ".parquet") =
        some [80, 75] ∧
      lookupFS sOut.containerFS ("/data/" ++ "d1" ++ ".parquet") =
        lookupFS ([] : ContainerFS) ("/data/" ++ "d1" ++ ".parquet") ∧
      sOut.cache.find? (fun e => e.id = "d1") =
        some ⟨"d1", statusLOADED, "t1"⟩ ∧
      sOut.hostFiles = [] :=
  C5_api_tmpfs_staging cfgTA "./sessions" "sid" "d1" (fun _ => [80, 75])
    (fun _ => false) "t1" ⟨[], [], [⟨"d1", statusPENDING, "t0"⟩]⟩ rfl rfl rfl
    (by decide) (by decide)

/-! ### `exec` artifact discovery
(`langgraph_sandbox/sandbox/session_manager.py`, lines 823-914)

The before/after snapshots are the sets of `/session`-relative artifact
paths produced by the filesystem scans; Python's `sorted` over a set of
strings is code-point lexicographic order, embedded here as an insertion
sort with an explicit code-point comparator. -/

/-- Code-point lexicographic `≤` on character lists (Python's `str`
comparison). -/
def charListLe : List Char → List Char → Bool
  | [], _ => true
  | _ :: _, [] => false
  | a :: as, b :: bs =>
      if a.toNat < b.toNat then true
      else if b.toNat < a.toNat then false
      else charListLe as bs

/-- Code-point lexicographic `≤` on strings. -/
def strLe (a b : String) : Bool := charListLe a.toList b.toList

/-- `sorted(...)` on a list of strings. -/
def sortStrings (l : List String) : List String :=
  l.insertionSort (fun a b => strLe a b = true)

lemma charListLe_cons (a b : Char) (as bs : List Char) :
    charListLe (a :: as) (b :: bs) = true ↔
      a.toNat < b.toNat ∨ (a.toNat = b.toNat ∧ charListLe as bs = true) := by
  by_cases h1 : a.toNat < b.toNat
  · simp [charListLe, h1]
  · by_cases h2 : b.toNat < a.toNat
    · simp only [charListLe, if_neg h1, if_pos h2]
      constructor
      · intro h
        exact absurd h (by simp)
      · rintro (h | ⟨h, _⟩) <;> omega
    · have he : a.toNat = b.toNat := by omega
      simp only [charListLe, if_neg h1, if_neg h2]
      constructor
      · intro h
        exact Or.inr ⟨he, h⟩
      · rintro (h | ⟨_, h⟩)
        · omega
        · exact h

lemma charListLe_total : ∀ l1 l2, charListLe l1 l2 = true ∨ charListLe l2 l1 = true := by
  intro l1
  induction l1 with
  | nil => intro l2; left; rfl
  | cons a as ih =>
      intro l2
      cases l2 with
      | nil => right; rfl
      | cons b bs =>
          rcases Nat.lt_trichotomy a.toNat b.toNat with h | h | h
          · left; rw [charListLe_cons]; exact Or.inl h
          · rcases ih bs with hy | hy
            · left; rw [charListLe_cons]; exact Or.inr ⟨h, hy⟩
            · right; rw [charListLe_cons]; exact Or.inr ⟨h.symm, hy⟩
          · right; rw [charListLe_cons]; exact Or.inl h

lemma charListLe_trans : ∀ l1 l2 l3, charListLe l1 l2 = true →
    charListLe l2 l3 = true → charListLe l1 l3 = true := by
  intro l1
  induction l1 with
  | nil => intros; rfl
  | cons a as ih =>
      intro l2 l3 h12 h23
      cases l2 with
      | nil => simp [charListLe] at h12
      | cons b bs =>
          cases l3 with
          | nil => simp [charListLe] at h23
          | cons c cs =>
              rw [charListLe_cons] at h12 h23 ⊢
              rcases h12 with h12 | ⟨h12, h12r⟩ <;>
                rcases h23 with h23 | ⟨h23, h23r⟩
              · exact Or.inl (by omega)
              · exact Or.inl (by omega)
              · exact Or.inl (by omega)
              · exact Or.inr ⟨by omega, ih bs cs h12r h23r⟩

instance : IsTotal String (fun a b => strLe a b = true) :=
  ⟨fun a b => charListLe_total a.toList b.toList⟩

instance : IsTrans String (fun a b => strLe a b = true) :=
  ⟨fun a b c => charListLe_trans a.toList b.toList c.toList⟩

lemma sortStrings_perm (l : List String) : (sortStrings l).Perm l :=
  List.perm_insertionSort _ l

lemma sortStrings_sorted (l : List String) :
    (sortStrings l).Sorted (fun a b => strLe a b = true) :=
  List.sorted_insertionSort _ l

lemma takeWhile_append_of_stop {α : Type} (p : α → Bool) (l1 l2 : List α)
    (c : α) (hc : p c = false) :
    (l1 ++ c :: l2).takeWhile p = l1.takeWhile p := by
  induction l1 with
  | nil => simp [List.takeWhile_cons, hc]
  | cons x t ih =>
      by_cases hx : p x <;> simp [List.takeWhile_cons, hx, ih]

lemma takeWhile_all {α : Type} (p : α → Bool) :
    ∀ l : List α, (∀ a ∈ l, p a = true) → l.takeWhile p = l := by
  intro l h
  induction l with
  | nil => rfl
  | cons x t ih =>
      rw [List.takeWhile_cons, if_pos (h x (by simp))]
      rw [ih (fun a ha => h a (by simp [ha]))]

/-- `Path(d + "/" + r).name = Path(r).name`. -/
lemma basename_append_slash (d r : String) : basename (d ++ "/" ++ r) = basename r := by
  unfold basename
  congr 1
  have hdata : (d ++ "/" ++ r).toList = (d.toList ++ ['/']) ++ r.toList := by
    simp [String.toList, String.data_append]
  rw [hdata, List.reverse_append, List.reverse_append]
  simp only [List.reverse_cons, List.reverse_nil, List.nil_append,
    List.singleton_append]
  rw [takeWhile_append_of_stop _ _ _ '/' (by decide)]

lemma basename_toList (p : String) :
    (basename p).toList = (p.toList.reverse.takeWhile (fun c => c ≠ '/')).reverse :=
  rfl

lemma basename_no_slash (p : String) : '/' ∉ (basename p).toList := by
  rw [basename_toList]
  intro hmem
  rw [List.mem_reverse] at hmem
  have := List.mem_takeWhile_imp hmem
  simp at this

lemma basename_of_no_slash {p : String} (h : '/' ∉ p.toList) : basename p = p := by
  unfold basename
  rw [takeWhile_all]
  · rw [List.reverse_reverse]
    rfl
  · intro a ha
    rw [List.mem_reverse] at ha
    simp only [decide_eq_true_eq]
    intro hc
    exact h (hc ▸ ha)

lemma basename_idem (p : String) : basename (basename p) = basename p :=
  basename_of_no_slash (basename_no_slash p)

lemma append_slash_ne_empty (d r : String) : d ++ "/" ++ r ≠ "" := by
  intro hc
  have := congrArg String.length hc
  simp [String.length_append] at this
  exact absurd this.1.2 (by decide)

/-- The host path `copy_from_container` writes a new relative path to:
`<fresh staging dir>/<basename>`. -/
def tmpStagePath (rel : String) : String := "/tmp/sbox_art_batch" ++ "/" ++ basename rel

/-- One copy-out into the staging directory: replace the file at
`<staging dir>/<basename>` with the bytes read from the container (a copy
with a repeated basename overwrites, as on the real filesystem). -/
def stageStep (cfs : String → Option Bytes) (acc : List (String × Bytes))
    (rel : String) : List (String × Bytes) :=
  match cfs ("/session/" ++ rel) with
  | none => acc
  | some data =>
      acc.filter (fun pr => pr.1 ≠ tmpStagePath rel) ++ [(tmpStagePath rel, data)]

/-- The host staging directory built in TMPFS mode by copying each new file
out of the container. -/
def stageTMPFS (cfs : String → Option Bytes) (rels : List String) :
    List (String × Bytes) :=
  rels.foldl (stageStep cfs) []

/-- Steps 3-7 of `SessionManager.exec`: diff the snapshots, sort the new
relative paths, materialize them on the host (TMPFS: copy out to a fresh
staging directory; BIND: join with the session directory) and ingest the
host files.  `none` models the `RuntimeError` raised when a copy-out fails
in TMPFS mode. -/
def exec_artifacts (env : IngestEnv) (sess : String) (st : Store) (counter : Nat)
    (mode : SessionStorage) (session_dir : String)
    (cfs : String → Option Bytes) (hostfs : String → Option Bytes)
    (before after : List String) : Option IngestState :=
  let new_rel_paths := sortStrings (after.filter (fun rel => rel ∉ before))
  match mode with
  | SessionStorage.TMPFS =>
      if ∀ rel ∈ new_rel_paths, (cfs ("/session/" ++ rel)).isSome then
        some (ingest_files env sess none none
          (fun p => lookupFS (stageTMPFS cfs new_rel_paths) p) st counter
          (new_rel_paths.map tmpStagePath))
      else none
  | SessionStorage.BIND =>
      some (ingest_files env sess none none hostfs st counter
        (new_rel_paths.map (fun rel => session_dir ++ "/" ++ rel)))

lemma ingest_step_names (env : IngestEnv) (sess : String) (run tc : Option String)
    (hfs : String → Option Bytes) (s : IngestState) (p : String)
    (hp : (hfs p).isSome = true) :
    (ingest_step env sess run tc hfs s p).descriptors.map (fun d => d.name) =
      s.descriptors.map (fun d => d.name) ++ [basename p] := by
  unfold ingest_step
  cases hf : hfs p with
  | none => rw [hf] at hp; simp at hp
  | some content =>
      simp only
      by_cases hsize : content.length > env.maxBytes
      · rw [if_pos hsize]; simp
      · rw [if_neg hsize]; simp

lemma ingest_foldl_names (env : IngestEnv) (sess : String) (run tc : Option String)
    (hfs : String → Option Bytes) :
    ∀ (paths : List String) (s : IngestState),
    (∀ p ∈ paths, (hfs p).isSome = true) →
    ((paths.foldl (ingest_step env sess run tc hfs) s).descriptors.map
        (fun d => d.name)) =
      s.descriptors.map (fun d => d.name) ++ paths.map basename := by
  intro paths
  induction paths with
  | nil => intro s _; simp
  | cons p t ih =>
      intro s h
      simp only [List.foldl_cons, List.map_cons]
      rw [ih _ (fun q hq => h q (by simp [hq])),
        ingest_step_names env sess run tc hfs s p (h p (by simp))]
      simp

/-- `ingest_files` produces exactly one descriptor per input regular file,
in input order, named by the file's basename. -/
lemma ingest_files_names (env : IngestEnv) (sess : String) (run tc : Option String)
    (hfs : String → Option Bytes) (st : Store) (counter : Nat)
    (paths : List String)
    (hkeep : ∀ p ∈ paths, p ≠ "" ∧ (hfs p).isSome = true) :
    (ingest_files env sess run tc hfs st counter paths).descriptors.map
        (fun d => d.name) =
      paths.map basename := by
  unfold ingest_files
  have hfilter : paths.filter (fun p => p ≠ "" && (hfs p).isSome) = paths := by
    apply List.filter_eq_self.mpr
    intro p hp
    simp [(hkeep p hp).1, (hkeep p hp).2]
  rw [hfilter,
    ingest_foldl_names env sess run tc hfs paths _ (fun p hp => (hkeep p hp).2)]
  simp

lemma stageStep_lookup_mono (cfs : String → Option Bytes)
    (acc : List (String × Bytes)) (rel p : String)
    (h : (lookupFS acc p).isSome = true) :
    (lookupFS (stageStep cfs acc rel) p).isSome = true := by
  unfold stageStep
  cases hc : cfs ("/session/" ++ rel) with
  | none => exact h
  | some data =>
      simp only
      by_cases hp : p = tmpStagePath rel
      · subst hp
        rw [lookupFS_update_self]
        rfl
      · rw [lookupFS_update_other _ _ _ _ hp]
        exact h

lemma stage_foldl_mono (cfs : String → Option Bytes) :
    ∀ (rels : List String) (acc : List (String × Bytes)) (p : String),
    (lookupFS acc p).isSome = true →
    (lookupFS (rels.foldl (stageStep cfs) acc) p).isSome = true := by
  intro rels
  induction rels with
  | nil => intro acc p h; exact h
  | cons x t ih =>
      intro acc p h
      exact ih _ p (stageStep_lookup_mono cfs acc x p h)

lemma stage_foldl_mem (cfs : String → Option Bytes) :
    ∀ (rels : List String) (acc : List (String × Bytes)) (rel : String),
    rel ∈ rels → (cfs ("/session/" ++ rel)).isSome = true →
    (lookupFS (rels.foldl (stageStep cfs) acc) (tmpStagePath rel)).isSome = true := by
  intro rels
  induction rels with
  | nil => intro _ _ h; simp at h
  | cons x t ih =>
      intro acc rel hmem hc
      rcases List.mem_cons.mp hmem with rfl | hmem'
      · rw [List.foldl_cons]
        apply stage_foldl_mono
        unfold stageStep
        cases hcx : cfs ("/session/" ++ rel) with
        | none => rw [hcx] at hc; simp at hc
        | some data =>
            simp only
            rw [lookupFS_update_self]
            rfl
      · rw [List.foldl_cons]
        exact ih _ rel hmem' hc

/-- C2: a (successful) `exec` call returns exactly one artifact descriptor
per element of the after-minus-before snapshot difference, processed in
Python's sorted (code-point lexicographic) order: the sorted list is a
permutation of the set difference, the descriptor names follow it
elementwise (each named by the file's basename), and the list lengths
agree.  Holds in both storage modes. -/
theorem C2_exec_returns_sorted_diff (env : IngestEnv) (sess : String) (st : Store)
    (counter : Nat) (mode : SessionStorage) (session_dir : String)
    (cfs hostfs : String → Option Bytes) (before after : List String)
    (hcontent : ∀ rel ∈ after, rel ∉ before →
      (cfs ("/session/" ++ rel)).isSome = true)
    (hhost : ∀ rel ∈ after, rel ∉ before →
      (hostfs (session_dir ++ "/" ++ rel)).isSome = true) :
    ∃ r, exec_artifacts env sess st counter mode session_dir cfs hostfs
        before after = some r ∧
      r.descriptors.map (fun d => d.name) =
        (sortStrings (after.filter (fun rel => rel ∉ before))).map basename ∧
      (sortStrings (after.filter (fun rel => rel ∉ before))).Perm
        (after.filter (fun rel => rel ∉ before)) ∧
      (sortStrings (after.filter (fun rel => rel ∉ before))).Sorted
        (fun a b => strLe a b = true) ∧
      r.descriptors.length = (after.filter (fun rel => rel ∉ before)).length := by
  have hdiff : ∀ rel ∈ sortStrings (after.filter (fun rel => rel ∉ before)),
      rel ∈ after ∧ rel ∉ before := by
    intro rel hrel
    have hmem := (sortStrings_perm _).subset hrel
    have := List.mem_filter.mp hmem
    simpa using this
  have hlen : ∀ (ds : List Descriptor),
      ds.map (fun d => d.name) =
        (sortStrings (after.filter (fun rel => rel ∉ before))).map basename →
      ds.length = (after.filter (fun rel => rel ∉ before)).length := by
    intro ds hnames
    have h1 := congrArg List.length hnames
    rw [List.length_map, List.length_map] at h1
    rw [h1, (sortStrings_perm _).length_eq]
  cases mode with
  | TMPFS =>
      have hall : ∀ rel ∈ sortStrings (after.filter (fun rel => rel ∉ before)),
          (cfs ("/session/" ++ rel)).isSome = true := by
        intro rel hrel
        exact hcontent rel (hdiff rel hrel).1 (hdiff rel hrel).2
      have hnames :
          (ingest_files env sess none none
            (fun p => lookupFS (stageTMPFS cfs
              (sortStrings (after.filter (fun rel => rel ∉ before)))) p) st counter
            ((sortStrings (after.filter (fun rel => rel ∉ before))).map
              tmpStagePath)).descriptors.map (fun d => d.name) =
          (sortStrings (after.filter (fun rel => rel ∉ before))).map basename := by
        rw [ingest_files_names]
        · rw [List.map_map]
          apply List.map_congr_left
          intro rel _
          show basename (tmpStagePath rel) = basename rel
          unfold tmpStagePath
          rw [basename_append_slash, basename_idem]
        · intro p hp
          obtain ⟨rel, hrel, rfl⟩ := List.mem_map.mp hp
          refine ⟨append_slash_ne_empty _ _, ?_⟩
          exact stage_foldl_mem cfs _ [] rel hrel (hall rel hrel)
      refine ⟨_, ?_, hnames, sortStrings_perm _, sortStrings_sorted _, ?_⟩
      · unfold exec_artifacts
        simp only
        rw [if_pos hall]
      · have := hlen _ hnames
        simpa using this
  | BIND =>
      have hnames :
          (ingest_files env sess none none hostfs st counter
            ((sortStrings (after.filter (fun rel => rel ∉ before))).map
              (fun rel => session_dir ++ "/" ++ rel))).descriptors.map
            (fun d => d.name) =
          (sortStrings (after.filter (fun rel => rel ∉ before))).map basename := by
        rw [ingest_files_names]
        · rw [List.map_map]
          apply List.map_congr_left
          intro rel _
          show basename (session_dir ++ "/" ++ rel) = basename rel
          rw [basename_append_slash]
        · intro p hp
          obtain ⟨rel, hrel, rfl⟩ := List.mem_map.mp hp
          exact ⟨append_slash_ne_empty _ _,
            hhost rel (hdiff rel hrel).1 (hdiff rel hrel).2⟩
      refine ⟨_, rfl, hnames, sortStrings_perm _, sortStrings_sorted _, ?_⟩
      have := hlen _ hnames
      simpa using this

/-- Container contents after the witness run: two new artifact files beside
a pre-existing one. -/
def wCfs : String → Option Bytes := fun p =>
  if p = "/session/artifacts/a.txt" then some [1]
  else if p = "/session/artifacts/b.txt" then some [2]
  else if p = "/session/artifacts/old.txt" then some [0] else none

/-- Witness for C2 at a concrete snapshot pair (TMPFS mode). -/
theorem C2_exec_returns_sorted_diff_witness :
    ∃ r, exec_artifacts toyEnv "s1" emptyStore 0 SessionStorage.TMPFS "" wCfs
        (fun _ => some []) ["artifacts/old.txt"]
        ["artifacts/old.txt", "artifacts/b.txt", "artifacts/a.txt"] = some r ∧
      r.descriptors.map (fun d => d.name) =
        (sortStrings
          (["artifacts/old.txt", "artifacts/b.txt", "artifacts/a.txt"].filter
            (fun rel => rel ∉ ["artifacts/old.txt"]))).map basename ∧
      (sortStrings
        (["artifacts/old.txt", "artifacts/b.txt", "artifacts/a.txt"].filter
          (fun rel => rel ∉ ["artifacts/old.txt"]))).Perm
        (["artifacts/old.txt", "artifacts/b.txt", "artifacts/a.txt"].filter
          (fun rel => rel ∉ ["artifacts/old.txt"])) ∧
      (sortStrings
        (["artifacts/old.txt", "artifacts/b.txt", "artifacts/a.txt"].filter
          (fun rel => rel ∉ ["artifacts/old.txt"]))).Sorted
        (fun a b => strLe a b = true) ∧
      r.descriptors.length =
        (["artifacts/old.txt", "artifacts/b.txt", "artifacts/a.txt"].filter
          (fun rel => rel ∉ ["artifacts/old.txt"])).length :=
  C2_exec_returns_sorted_diff toyEnv "s1" emptyStore 0 SessionStorage.TMPFS ""
    wCfs (fun _ => some []) ["artifacts/old.txt"]
    ["artifacts/old.txt", "artifacts/b.txt", "artifacts/a.txt"]
    (by decide) (by decide)

end Sandbox
